import Mathlib

/-!
Verification of the full-text extraction engine in
`src/papers_crawler/crawl_text_async.py` (function `extract_fulltext_as_json`
and its nested helpers).  The document tree handed to the engine by
BeautifulSoup is modelled as a simple rose tree (`Node`); each nested helper
of the Python function is translated into a pure Lean function over that
tree, with the closure-mutated state (`json_data`, `current_section`,
`current_section_parts`, `text_parts`, `recent_lines`,
`pending_bullet_prefix`, footnote maps) made explicit as the record
`ExtState`.

Modelling conventions, fixed once here:
* Python strings are Lean `String`s; `str.strip()` is `pyStrip` (the six
  ASCII whitespace characters of Python's `\s`), `str.lower()` is
  `pyLower` (ASCII lowering; the documents at hand are ASCII, Python also
  lowers non-ASCII letters), `str.replace` is `pyReplace`,
  `str.startswith`/`str.endswith` are `pyStartsWith`/`pyEndsWith`,
  `re.sub(r"\s+", " ", s)` is `collapseWs`, `re.sub(r" +", " ", s)` is
  `collapseSpaces`, `a in b` on strings is `containsSub b a`.
* A BeautifulSoup `Tag` is `Node.elem tag attrs children`; a
  `NavigableString` is `Node.text s`.  Multi-valued `class` attributes are
  stored as the raw attribute string and split on whitespace by
  `classesOf`, matching the soup-builder behaviour.
* Python dicts keep insertion order; they are modelled as association lists
  with `dictInsert` (overwrite in place, append if new) and `lookupStr`.
* `collections.deque(maxlen=60)` is a list with `dequeAppend 60`.
* Tag equality (`Tag.__eq__`, used by `in` checks against collections of
  tags) is structural; it is modelled by `nodeEq`.
-/

/-- Python `\s` (ASCII): space, tab, newline, carriage return, vertical tab,
form feed. -/
def isWsChar (c : Char) : Bool :=
  c = ' ' || c = '\t' || c = '\n' || c = '\r' || c = Char.ofNat 11 || c = Char.ofNat 12

/-- Drop leading whitespace characters from a character list. -/
def dropWsLead : List Char → List Char
  | [] => []
  | c :: cs => if isWsChar c then dropWsLead cs else c :: cs

/-- Python `str.strip()`. -/
def pyStrip (s : String) : String :=
  String.mk ((dropWsLead ((dropWsLead s.data.reverse)).reverse))

/-- `re.sub(r"\s+", " ", s)`: every maximal whitespace run becomes one
space (no trimming).  The flag records whether the previous character was
whitespace (i.e. the current run has already emitted its space). -/
def collapseWsAux : List Char → Bool → List Char
  | [], _ => []
  | c :: cs, inRun =>
    if isWsChar c then
      if inRun then collapseWsAux cs true else ' ' :: collapseWsAux cs true
    else c :: collapseWsAux cs false

/-- `re.sub(r"\s+", " ", s)`. -/
def collapseWs (s : String) : String := String.mk (collapseWsAux s.data false)

/-- `re.sub(r" +", " ", s)`: maximal runs of the space character become one
space. -/
def collapseSpacesAux : List Char → Bool → List Char
  | [], _ => []
  | c :: cs, inRun =>
    if c = ' ' then
      if inRun then collapseSpacesAux cs true else ' ' :: collapseSpacesAux cs true
    else c :: collapseSpacesAux cs false

/-- `re.sub(r" +", " ", s)`. -/
def collapseSpaces (s : String) : String := String.mk (collapseSpacesAux s.data false)

/-- List-prefix test used by the substring test below. -/
def isPrefixList : List Char → List Char → Bool
  | [], _ => true
  | _ :: _, [] => false
  | p :: ps, c :: cs => p = c && isPrefixList ps cs

/-- Helper for `containsSub`. -/
def containsSubAux (pat : List Char) : List Char → Bool
  | [] => isPrefixList pat []
  | c :: cs => isPrefixList pat (c :: cs) || containsSubAux pat cs

/-- Python `pat in s` for strings: `pat` occurs as a contiguous substring of
`s` (the empty pattern always occurs). -/
def containsSub (s pat : String) : Bool := containsSubAux pat.data s.data

/-- ASCII lowercasing of one character (Python `str.lower` restricted to
the ASCII range of the documents at hand). -/
def lowerChar (c : Char) : Char :=
  if 'A' ≤ c && c ≤ 'Z' then Char.ofNat (c.toNat + 32) else c

/-- Python `str.lower()` (ASCII). -/
def pyLower (s : String) : String := String.mk (s.data.map lowerChar)

/-- Python `str.startswith`. -/
def pyStartsWith (s pre : String) : Bool := isPrefixList pre.data s.data

/-- Python `str.endswith`. -/
def pyEndsWith (s suf : String) : Bool := isPrefixList suf.data.reverse s.data.reverse

/-- Python `str.replace`, non-overlapping left-to-right; the fuel argument
(Nat, initially the input length) only makes the recursion structural and
never runs out, since every step consumes at least one character. -/
def pyReplaceLoop (pat rep : List Char) : Nat → List Char → List Char
  | _, [] => []
  | 0, l => l
  | Nat.succ fuel, c :: cs =>
    if isPrefixList pat (c :: cs) then
      rep ++ pyReplaceLoop pat rep fuel (List.drop (pat.length - 1) cs)
    else c :: pyReplaceLoop pat rep fuel cs

/-- Python `str.replace(pat, rep)` for the non-empty patterns used by the
engine (for an empty pattern with empty replacement, Python is the
identity, as here). -/
def pyReplace (s pat rep : String) : String :=
  if pat.data.isEmpty then s
  else String.mk (pyReplaceLoop pat.data rep.data s.data.length s.data)

/-- Python `' ' * n`. -/
def spacesOf (n : Nat) : String := String.mk (List.replicate n ' ')

/-- Python `str.rstrip("\n")`. -/
def rstripNl (s : String) : String :=
  String.mk (((s.data.reverse.dropWhile (· = '\n'))).reverse)

/-- Value of a digit run, as Python `int` of the matched text. -/
def digitsToNat (ds : List Char) : Nat :=
  ds.foldl (fun acc c => acc * 10 + (c.toNat - 48)) 0

/-- `re.search(r"(\d+)", s)`: the first maximal run of decimal digits, as a
number. -/
def firstDigitRun : List Char → Option Nat
  | [] => none
  | c :: cs =>
    if c.isDigit then some (digitsToNat (c :: cs.takeWhile Char.isDigit))
    else firstDigitRun cs

/-- Maximal non-whitespace runs of a character list (Python `str.split()`),
collected with an accumulator for the run in progress (held reversed). -/
def wsTokensAux : List Char → List Char → List (List Char)
  | [], cur => if cur.isEmpty then [] else [cur.reverse]
  | c :: cs, cur =>
    if isWsChar c then
      if cur.isEmpty then wsTokensAux cs [] else cur.reverse :: wsTokensAux cs []
    else wsTokensAux cs (c :: cur)

/-- `' '.join(s.split())`: split on whitespace runs, drop empties, join with
single spaces. -/
def wsNormJoin (s : String) : String :=
  String.intercalate " " ((wsTokensAux s.data []).map String.mk)

/-- Ordered-dict insertion: overwrite in place when the key exists, append
otherwise (CPython dict assignment). -/
def dictInsert (d : List (String × String)) (k v : String) : List (String × String) :=
  if d.any (fun p => p.1 = k) then d.map (fun p => if p.1 = k then (k, v) else p)
  else d ++ [(k, v)]

/-- Association-list lookup (Python `dict.get`). -/
def lookupStr (d : List (String × String)) (k : String) : Option String :=
  (d.find? (fun p => p.1 = k)).map (fun p => p.2)

/-- Association-list lookup for the `footnote_in_refs` dict. -/
def lookupBool (d : List (String × Bool)) (k : String) : Option Bool :=
  (d.find? (fun p => p.1 = k)).map (fun p => p.2)

/-- `collections.deque(maxlen=cap).append`: append on the right, dropping
from the left when over capacity. -/
def dequeAppend (cap : Nat) (d : List String) (x : String) : List String :=
  let d2 := d ++ [x]
  if cap < d2.length then d2.drop (d2.length - cap) else d2

/-- A parsed document node: a `NavigableString` or a `Tag` with a tag name,
attributes and children. -/
inductive Node where
  | text : String → Node
  | elem : String → List (String × String) → List Node → Node

/- Size measure used for termination of the tree recursions. -/
mutual
def nsize : Node → Nat
  | Node.text _ => 1
  | Node.elem _ _ c => 1 + lsize c
def lsize : List Node → Nat
  | [] => 0
  | n :: ns => nsize n + lsize ns
end

/- Structural equality on nodes, modelling BeautifulSoup's `Tag.__eq__`
(same name, same attributes, same contents) and `NavigableString`
equality. -/
mutual
def nodeEq : Node → Node → Bool
  | Node.text a, Node.text b => a = b
  | Node.elem t1 a1 c1, Node.elem t2 a2 c2 => t1 = t2 && a1 = a2 && nodesEq c1 c2
  | _, _ => false
def nodesEq : List Node → List Node → Bool
  | [], [] => true
  | a :: as, b :: bs => nodeEq a b && nodesEq as bs
  | _, _ => false
end

/-- Membership of a node in a collection of marked nodes, via `nodeEq`. -/
def nodeMem (l : List Node) (n : Node) : Bool := l.any (fun m => nodeEq m n)

/-- `tag.get(attr)`, `None` when absent. -/
def getAttr (n : Node) (k : String) : Option String :=
  match n with
  | Node.text _ => none
  | Node.elem _ attrs _ => (attrs.find? (fun p => p.1 = k)).map (fun p => p.2)

/-- `tag.get(attr) or ""` / `tag.get(attr, "")` for string attributes. -/
def attrD (n : Node) (k : String) : String := (getAttr n k).getD ""

/-- `tag.has_attr(attr)`. -/
def hasAttrN (n : Node) (k : String) : Bool := (getAttr n k).isSome

/-- The tag name (`tag.name`); empty for a string node. -/
def tagOf : Node → String
  | Node.text _ => ""
  | Node.elem t _ _ => t

/-- The children list; empty for a string node. -/
def childrenOf : Node → List Node
  | Node.text _ => []
  | Node.elem _ _ c => c

def isElem : Node → Bool
  | Node.text _ => false
  | Node.elem _ _ _ => true

/-- `tag.get("class", [])`: the whitespace-separated class list. -/
def classesOf (n : Node) : List String :=
  ((wsTokensAux (attrD n "class").data []).map String.mk)

/- All descendant string fragments in document order (`tag.strings`). -/
mutual
def textFragments : Node → List String
  | Node.text s => [s]
  | Node.elem _ _ c => textFragmentsList c
def textFragmentsList : List Node → List String
  | [] => []
  | n :: ns => textFragments n ++ textFragmentsList ns
end

/-- `tag.stripped_strings`: each fragment stripped, empties dropped. -/
def strippedStrings (n : Node) : List String :=
  ((textFragments n).map pyStrip).filter (fun s => s ≠ "")

/-- `tag.get_text(strip=True)`. -/
def getTextStrip (n : Node) : String := String.join (strippedStrings n)

/-- `tag.get_text(sep, strip=True)`. -/
def getTextSepStrip (sep : String) (n : Node) : String :=
  String.intercalate sep (strippedStrings n)

/- All descendant elements (not the node itself) satisfying `p`, in
document (pre-)order: `tag.find_all(...)`. -/
mutual
def findAllBy (p : Node → Bool) : Node → List Node
  | Node.text _ => []
  | Node.elem _ _ c => findAllList p c
def findAllList (p : Node → Bool) : List Node → List Node
  | [] => []
  | n :: rest =>
    (if isElem n && p n then [n] else []) ++ findAllBy p n ++ findAllList p rest
end

/-- `tag.find(...)`: first matching descendant in document order. -/
def findFirstBy (p : Node → Bool) (n : Node) : Option Node :=
  (findAllBy p n).head?

/- All descendant elements satisfying `p`, each paired with its ancestor
chain (nearest first, ending at the given root).  Models `soup.select` /
`find_all` plus the `parents` axis. -/
mutual
def selectAncNode (p : Node → Bool) (anc : List Node) : Node → List (Node × List Node)
  | Node.text _ => []
  | Node.elem t a c => selectAncList p (Node.elem t a c :: anc) c
def selectAncList (p : Node → Bool) (anc : List Node) : List Node → List (Node × List Node)
  | [] => []
  | n :: rest =>
    (if isElem n && p n then [(n, anc)] else []) ++
    selectAncNode p anc n ++ selectAncList p anc rest
end

def selectAnc (p : Node → Bool) (root : Node) : List (Node × List Node) :=
  selectAncList p [root] (childrenOf root)

/-- `tag.find_parent(tags)` given the ancestor chain: the first ancestor
whose name is in `tags`, together with its own remaining ancestor chain. -/
def findParentIn (tags : List String) : List Node → Option (Node × List Node)
  | [] => none
  | n :: rest => if tags.contains (tagOf n) then some (n, rest) else findParentIn tags rest

/-- Direct children that are elements with one of the given names
(`find_all(names, recursive=False)`). -/
def directChildrenNamed (names : List String) (n : Node) : List Node :=
  (childrenOf n).filter (fun c => isElem c && names.contains (tagOf c))

/-- All descendant elements of a node, itself included (used by
`mark_footnote_elements`). -/
def selfAndDescElems (n : Node) : List Node :=
  n :: findAllBy (fun _ => true) n

/- Remove every descendant element matching `p` (with its whole subtree):
`for t in soup.find_all(...): t.decompose()`. -/
mutual
def pruneBy (p : Node → Bool) : Node → Node
  | Node.text s => Node.text s
  | Node.elem t a c => Node.elem t a (pruneList p c)
def pruneList (p : Node → Bool) : List Node → List Node
  | [] => []
  | n :: rest =>
    if isElem n && p n then pruneList p rest
    else pruneBy p n :: pruneList p rest
end

/-- Separator tokens swallowed between grouped citations
(`{",", ";", "and", "&", "–", "-"}` in `extract_text_with_refs`). -/
def sepTokens : List String := [",", ";", "and", "&", "–", "-"]

/-- Inline formatting wrappers whose children are flattened in place. -/
def wrapperTags : List String := ["span", "strong", "em", "i", "b"]

/-- `flush_refs`: the pending citation numbers become one annotation part
`" (Ref: n1, n2, ...)"`. -/
def flushAnn (pending : List String) : List String :=
  if pending.isEmpty then [] else [" (Ref: " ++ String.intercalate ", " pending ++ ")"]

/- `extract_text_with_refs(element)`.  The walk over `element.children`
threads the pair `(parts, pending_refs)`; the `pisr` argument tells the
child-step whether the parent element is an `a[role="doc-biblioref"]`
(`child.parent.name == "a" and child.parent.get("role") == "doc-biblioref"`
in the source, the parent being the element whose children are walked).
The recursive call `extract_text_with_refs(child)` of the source appears
inlined in `etwrStep` as
`etwrList c (pisr of the child) ([], [])` followed by the final flush; the
wrapper `etwrNode` below packages that same body per node. -/
mutual
def etwrList : List Node → Bool → List String × List String → List String × List String
  | [], _, st => st
  | n :: ns, pisr, st => etwrList ns pisr (etwrStep n pisr st)

def etwrStep : Node → Bool → List String × List String → List String × List String
  | Node.text s, _, st => if pyStrip s ≠ "" then (st.1 ++ flushAnn st.2 ++ [s], []) else st
  | Node.elem t a c, pisr, st =>
    if t == "div" && (classesOf (Node.elem t a c)).contains "dropBlock__holder" then st
    else if t == "a" && attrD (Node.elem t a c) "role" == "doc-biblioref" then
      match findFirstBy (fun m => tagOf m == "sup") (Node.elem t a c) with
      | some sup => (st.1, st.2 ++ [getTextStrip sup])
      | none => st
    else if t == "sup" || t == "sub" then
      let supText := getTextStrip (Node.elem t a c)
      if sepTokens.contains supText then st
      else if pisr then st
      else (st.1 ++ flushAnn st.2 ++ (if supText ≠ "" then [supText] else []), [])
    else if wrapperTags.contains t then
      let stc := etwrList c (t == "a" && attrD (Node.elem t a c) "role" == "doc-biblioref") ([], [])
      let childParts := stc.1 ++ flushAnn stc.2
      let childText := pyStrip (String.join childParts)
      if sepTokens.contains childText then st
      else if childText ≠ "" then (st.1 ++ flushAnn st.2 ++ childParts, [])
      else st
    else
      let stc := etwrList c (t == "a" && attrD (Node.elem t a c) "role" == "doc-biblioref") ([], [])
      (st.1 ++ flushAnn st.2 ++ (stc.1 ++ flushAnn stc.2), [])
end

/-- The body of `extract_text_with_refs` on one element's pieces: walk the
children, flush at the end. -/
def etwrSub (t : String) (a : List (String × String)) (c : List Node) : List String :=
  let st := etwrList c (t == "a" && attrD (Node.elem t a c) "role" == "doc-biblioref") ([], [])
  st.1 ++ flushAnn st.2

/-- `extract_text_with_refs(element)` on a node. -/
def etwrNode : Node → List String
  | Node.text _ => []
  | Node.elem t a c => etwrSub t a c

/-- `clean_text(value)`: collapse whitespace runs and trim. -/
def clean_text (value : String) : String :=
  if value = "" then "" else pyStrip (collapseWs value)

/-- The `unwanted_phrases` list of the source. -/
def unwanted_phrases : List String :=
  ["search for articles by this author", "crossref", "scopus", "google scholar",
   "show more", "show less", "supplementary material", "supplementary information",
   "metrics", "copyright", "licence", "license"]

/-- The `reference_skip_phrases` tuple of the source. -/
def reference_skip_phrases : List String :=
  ["full text", "full text (pdf)", "pdf", "crossref", "scopus", "pubmed",
   "google scholar", "open table in a new tab", "view abstract",
   "supplementary information"]

/-- `should_skip_text(text)`. -/
def should_skip_text (text : String) : Bool :=
  if text = "" then true
  else
    let stripped := pyStrip text
    let lower := pyLower stripped
    if pyStartsWith lower "/* lines" && pyEndsWith lower " omitted */" then true
    else if unwanted_phrases.any (fun ph => containsSub lower ph) then true
    else if stripped == "•" || stripped == "·" then false
    else if lower.length ≤ 2 && !(lower.data.any Char.isAlpha) then true
    else if lower == "…" || lower == "..." || lower == "∙" then true
    else false

/-- `re.sub(r"^\d+(\.|:)?\s*", "", s)`: strip a leading ordinal such as
`"12. "` or `"12: "`. -/
def stripLeadingOrdinal (s : String) : String :=
  match s.data with
  | [] => s
  | c :: _ =>
    if c.isDigit then
      let rest := s.data.dropWhile Char.isDigit
      let rest2 := match rest with
        | d :: ds => if d = '.' || d = ':' then ds else rest
        | [] => ([] : List Char)
      String.mk (dropWsLead rest2)
    else s

/-- `clean_reference_entry(tag)`. -/
def clean_reference_entry (tag : Node) : String :=
  let fragments := ((strippedStrings tag).map clean_text).filter
    (fun f => f ≠ "" && !(reference_skip_phrases.any (fun ph => containsSub (pyLower f) ph)))
  if fragments.isEmpty then ""
  else
    let combined := String.intercalate " " fragments
    let combined := pyStrip (collapseWs combined)
    let combined := stripLeadingOrdinal combined
    pyReplace combined " ," ","

/-- `normalize_identifier(value)`: strip, lowercase, drop one leading `#`,
remove all whitespace. -/
def normalize_identifier (value : String) : String :=
  if value = "" then ""
  else
    let normalized := pyLower (pyStrip value)
    let normalized := if pyStartsWith normalized "#" then normalized.drop 1 else normalized
    String.mk (normalized.data.filter (fun c => !isWsChar c))

/-- Maximal runs of characters NOT satisfying `p` (generic tokenizer used
for `re.split`). -/
def tokensByAux (p : Char → Bool) : List Char → List Char → List (List Char)
  | [], cur => if cur.isEmpty then [] else [cur.reverse]
  | c :: cs, cur =>
    if p c then
      if cur.isEmpty then tokensByAux p cs [] else cur.reverse :: tokensByAux p cs []
    else tokensByAux p cs (c :: cur)

/-- Python `value.split("#", 1)[1]`: everything after the first `#`. -/
def afterFirstHash (s : String) : String :=
  String.mk ((s.data.dropWhile (fun c => c ≠ '#')).drop 1)

/-- `split_identifier_values(raw_value)` for a string attribute value (the
attributes fed to it in this model are single-valued strings). -/
def split_identifier_values (raw : String) : List String :=
  let value := pyStrip raw
  if value = "" then []
  else
    let value := if pyStartsWith value "#" then value.drop 1 else value
    let value := if pyStartsWith value "http" && containsSub value "#" then afterFirstHash value
                 else value
    (tokensByAux (fun c => isWsChar c || c = ',' || c = ';') value.data []).map String.mk

/-- The attribute list of `extract_candidate_ids`. -/
def candidateAttrs : List String :=
  ["id", "name", "href", "data-rid", "data-ref", "data-reference",
   "data-footnote-id", "data-id", "data-target", "data-uuid", "data-bib",
   "data-bib-id", "data-citation-id", "data-annotation-id"]

/-- `extract_candidate_ids(element)`: candidate raw identifiers from a fixed
attribute list; `href` contributes only its fragment. -/
def extract_candidate_ids (el : Node) : List String :=
  candidateAttrs.foldl (fun acc attr =>
    match getAttr el attr with
    | none => acc
    | some raw =>
      if attr = "href" then
        if raw ≠ "" && containsSub raw "#" then acc ++ split_identifier_values (afterFirstHash raw)
        else acc
      else acc ++ split_identifier_values raw) []

/-- `reference_sort_key(identifier)`: the first digit run (as a number) with
the identifier as tie-break, or the sentinel `10 ** 6`. -/
def reference_sort_key (identifier : String) : Nat × String :=
  match firstDigitRun identifier.data with
  | some n => (n, identifier)
  | none => (1000000, identifier)

/-- `re.sub(r"\s+([.,;:!?])", r"\1", s)` helper: punctuation class. -/
def punct6 (c : Char) : Bool :=
  c = '.' || c = ',' || c = ';' || c = ':' || c = '!' || c = '?'

/-- `re.sub(r"\s+([.,;:!?])", r"\1", s)`: drop whitespace runs immediately
before punctuation.  The first argument holds the pending whitespace run,
reversed. -/
def fixSpacePunctAux : List Char → List Char → List Char
  | pend, [] => pend.reverse
  | pend, c :: cs =>
    if isWsChar c then fixSpacePunctAux (c :: pend) cs
    else if punct6 c && !pend.isEmpty then c :: fixSpacePunctAux [] cs
    else pend.reverse ++ c :: fixSpacePunctAux [] cs

def fixSpacePunct (s : String) : String := String.mk (fixSpacePunctAux [] s.data)

def isAsciiLetter (c : Char) : Bool := ('A' ≤ c && c ≤ 'Z') || ('a' ≤ c && c ≤ 'z')

/-- `re.sub(r"([.,;:!?])([A-Za-z])", r"\1 \2", s)`: ensure a space after
punctuation followed by a letter. -/
def fixPunctLetterAux : List Char → List Char
  | [] => []
  | [c] => [c]
  | c :: d :: cs =>
    if punct6 c && isAsciiLetter d then c :: ' ' :: fixPunctLetterAux (d :: cs)
    else c :: fixPunctLetterAux (d :: cs)

def fixPunctLetter (s : String) : String := String.mk (fixPunctLetterAux s.data)

/-- The prioritized selector list of `build_footnote_map`, as predicates
over elements:
`a[id^="bib"]`, `a[id^="ref"]`, `a[name^="bib"]`, `a[name^="ref"]`,
`[id^="bib"]`, `[id^="ref"]`, `li.reference`, `li.bibliography__item`. -/
def fnSelectors : List (Node → Bool) :=
  [fun n => tagOf n == "a" && pyStartsWith (attrD n "id") "bib",
   fun n => tagOf n == "a" && pyStartsWith (attrD n "id") "ref",
   fun n => tagOf n == "a" && pyStartsWith (attrD n "name") "bib",
   fun n => tagOf n == "a" && pyStartsWith (attrD n "name") "ref",
   fun n => pyStartsWith (attrD n "id") "bib",
   fun n => pyStartsWith (attrD n "id") "ref",
   fun n => tagOf n == "li" && (classesOf n).contains "reference",
   fun n => tagOf n == "li" && (classesOf n).contains "bibliography__item"]

/-- The `fid = candidate.get("id") or candidate.get("name")` chain of
`build_footnote_map`, including the nested-anchor fallback. -/
def candidateFid (cand : Node) : String :=
  let fid := if attrD cand "id" ≠ "" then attrD cand "id" else attrD cand "name"
  if fid ≠ "" then fid
  else
    let anchor :=
      match findFirstBy (fun m => tagOf m == "a" && hasAttrN m "id") cand with
      | some a => some a
      | none => findFirstBy (fun m => tagOf m == "a" && hasAttrN m "name") cand
    match anchor with
    | some a => if attrD a "id" ≠ "" then attrD a "id" else attrD a "name"
    | none => ""

/-- One candidate of `build_footnote_map`: its normalized ids, entry text,
`in_refs` flag and the container element — or `none` when the candidate is
skipped (no ids, or empty text). -/
def candRecord (refsSec : Option Node) (cand : Node) (anc : List Node) :
    Option (List String × String × Bool × Node) :=
  let fid := candidateFid cand
  let idsToProcess := if fid ≠ "" then [fid] else extract_candidate_ids cand
  if idsToProcess.isEmpty then none
  else
    let normalizedIds := (idsToProcess.map normalize_identifier).filter (fun v => v ≠ "")
    if normalizedIds.isEmpty then none
    else
      let contPair :=
        if tagOf cand == "a" || tagOf cand == "span" || tagOf cand == "sup" then
          match findParentIn ["li", "div", "section", "p"] anc with
          | some pr => pr
          | none => (cand, anc)
        else (cand, anc)
      let text := clean_reference_entry contPair.1
      if text = "" then none
      else
        let inRefs := match refsSec with
          | some rs => nodeMem contPair.2 rs
          | none => false
        some (normalizedIds, text, inRefs, contPair.1)

/-- The mutable state of `build_footnote_map`: `footnote_map`,
`footnote_in_refs`, `seen_ids` and `footnote_elements`. -/
structure FnState where
  map : List (String × String)
  inRefs : List (String × Bool)
  seen : List String
  elems : List Node

/-- The inner `for normalized_id in normalized_ids` loop: first successful
id wins, later ids already in `seen_ids` are ignored. -/
def fnInsertIds (text : String) (inR : Bool) : List String → FnState → FnState
  | [], st => st
  | i :: is, st =>
    if st.seen.contains i then fnInsertIds text inR is st
    else fnInsertIds text inR is
      { st with map := st.map ++ [(i, text)],
                inRefs := st.inRefs ++ [(i, inR)],
                seen := st.seen ++ [i] }

/-- Process one selector match of `build_footnote_map`. -/
def processCandidate (refsSec : Option Node) (st : FnState) (cand : Node × List Node) : FnState :=
  match candRecord refsSec cand.1 cand.2 with
  | none => st
  | some r =>
    let st := fnInsertIds r.2.1 r.2.2.1 r.1 st
    if !r.2.2.1 then { st with elems := st.elems ++ selfAndDescElems r.2.2.2 } else st

/-- All selector matches in selector order, each with its ancestor chain. -/
def fnCandidates (doc : Node) : List (Node × List Node) :=
  fnSelectors.foldl (fun acc p => acc ++ selectAnc p doc) []

/-- `build_footnote_map()`. -/
def buildFootnoteMap (doc : Node) (refsSec : Option Node) : FnState :=
  (fnCandidates doc).foldl (processCandidate refsSec) ⟨[], [], [], []⟩

/-- `collect_inline_footnotes(container)`. -/
def collect_inline_footnotes (fm : List (String × String)) (fr : List (String × Bool))
    (container : Node) : List String :=
  if fm.isEmpty then []
  else
    let step := fun (acc : List String × List String) (sup : Node) =>
      let candidateIds :=
        let c1 := extract_candidate_ids sup
        if c1.isEmpty then
          (findAllBy (fun m => tagOf m == "a") sup).foldl
            (fun a anchor => a ++ extract_candidate_ids anchor) []
        else c1
      candidateIds.foldl (fun (acc2 : List String × List String) cid =>
        let normalized := normalize_identifier cid
        if normalized = "" || acc2.2.contains normalized then acc2
        else if (lookupBool fr normalized).getD false then acc2
        else match lookupStr fm normalized with
          | none => acc2
          | some noteText =>
            if noteText = "" then acc2
            else (acc2.1 ++ [noteText], acc2.2 ++ [normalized])) acc
    ((findAllBy (fun m => tagOf m == "sup") container).foldl step ([], [])).1

/-- Lexicographic order on `reference_sort_key` values (Python tuple
comparison on `(int, str)`). -/
def keyLe (x y : Nat × String) : Prop := x.1 < y.1 ∨ (x.1 = y.1 ∧ x.2 ≤ y.2)

instance : DecidableRel keyLe := fun x y => by unfold keyLe; infer_instance

/-- The order used by `sorted(..., key=reference_sort_key)`. -/
def refIdLe (a b : String) : Prop := keyLe (reference_sort_key a) (reference_sort_key b)

instance : DecidableRel refIdLe := fun a b => by unfold refIdLe; infer_instance

/-- `sorted(ids, key=reference_sort_key)` (a stable sort; keys are injective
on the id component, so any correct sort gives Python's answer). -/
def sortedByRefKey (ids : List String) : List String := List.insertionSort refIdLe ids

/-- The shared skip-empty/dedup-case-insensitive accumulation used by all
three phases of `get_reference_entries` (`seen_text` holds lowercased
entries). -/
def dedupFoldTexts (texts : List String) (entries seen : List String) :
    List String × List String :=
  texts.foldl (fun (acc : List String × List String) text =>
    let lower := pyLower text
    if text = "" || acc.2.contains lower then acc
    else (acc.1 ++ [text], acc.2 ++ [lower])) (entries, seen)

/-- Phases (b) and (c) of `get_reference_entries` (the `if footnote_map:`
block). -/
def refPhaseBC (fm : List (String × String)) (fr : List (String × Bool))
    (entries seen : List String) : List String :=
  if fm.isEmpty then entries
  else
    let orderedIds := sortedByRefKey ((fr.filter (fun p => p.2)).map (fun p => p.1))
    let r2 := dedupFoldTexts (orderedIds.map (fun fid => (lookupStr fm fid).getD "")) entries seen
    if !r2.1.isEmpty then r2.1
    else (dedupFoldTexts (fm.map (fun p => p.2)) r2.1 r2.2).1

/-- The candidate elements of phase (a) of `get_reference_entries`:
direct `li` children, else descendant `div[role="listitem"]`, else direct
`div`/`p` children. -/
def refPhaseACandidates (sec : Node) : List Node :=
  let c1 := directChildrenNamed ["li"] sec
  if !c1.isEmpty then c1
  else
    let c2 := findAllBy (fun n => tagOf n == "div" && attrD n "role" == "listitem") sec
    if !c2.isEmpty then c2
    else directChildrenNamed ["div", "p"] sec

/-- `get_reference_entries()`. -/
def get_reference_entries (refsSec : Option Node) (fm : List (String × String))
    (fr : List (String × Bool)) : List String :=
  match refsSec with
  | some sec =>
    let r1 := dedupFoldTexts ((refPhaseACandidates sec).map clean_reference_entry) [] []
    if !r1.1.isEmpty then r1.1 else refPhaseBC fm fr r1.1 r1.2
  | none => refPhaseBC fm fr [] []

/-- The closure-mutated state of `extract_fulltext_as_json`:
`json_data`, `current_section`, `current_section_parts`, `text_parts`,
`recent_lines` (deque of max length 60), `pending_bullet_prefix` and the
footnote index produced by the pre-pass. -/
structure ExtState where
  jsonData : List (String × String)
  currentSection : String
  sectionParts : List String
  textParts : List String
  recentLines : List String
  pendingBullet : Option String
  footnoteMap : List (String × String)
  footnoteInRefs : List (String × Bool)
  footnoteElems : List Node

/-- `skip_names`. -/
def skipNames : List String := ["script", "style", "svg", "noscript", "form", "hr", "iframe"]

/-- `container_keywords`. -/
def containerKeywords : List String :=
  ["core-container", "section", "subsection", "article__section", "article-section",
   "body-section", "content-block"]

def indentStep : Nat := 2
def maxIndent : Nat := 12

/-- `ensure_paragraph_break()`. -/
def ensureParagraphBreak (st : ExtState) : ExtState :=
  match st.textParts.getLast? with
  | none => st
  | some last =>
    if last == "\n" || pyEndsWith last "\n\n" then st
    else { st with textParts := st.textParts ++ ["\n"] }

/-- `append_line(text, indent, allow_repeat)`. -/
def append_line (text : String) (indent : Nat) (allowRepeat : Bool) (st : ExtState) : ExtState :=
  let cleaned := clean_text text
  if cleaned = "" then st
  else
    let stripped := pyStrip cleaned
    if stripped == "•" || stripped == "·" then
      { st with pendingBullet := some (spacesOf indent ++ "• ") }
    else if (stripped == "+" || stripped == "-" || stripped == "−") && !st.textParts.isEmpty then
      let last := st.textParts.getLastD ""
      let updated := rstripNl last ++ " " ++ stripped ++ "\n"
      { st with textParts := st.textParts.dropLast ++ [updated],
                recentLines := dequeAppend 60 st.recentLines (clean_text (pyStrip updated)) }
    else if should_skip_text cleaned then st
    else
      let cleaned2 := if indent ≠ 0 && st.pendingBullet.isNone then spacesOf indent ++ cleaned
                      else cleaned
      let cleaned3 := match st.pendingBullet with
        | some pre => pre ++ cleaned2
        | none => cleaned2
      let dedupKey := clean_text cleaned3
      if !allowRepeat && st.recentLines.contains dedupKey then
        { st with pendingBullet := none }
      else
        { st with pendingBullet := none,
                  recentLines := dequeAppend 60 st.recentLines dedupKey,
                  sectionParts := st.sectionParts ++ [cleaned3 ++ "\n"],
                  textParts := st.textParts ++ [cleaned3 ++ "\n"] }

/-- The section-name slug of `append_heading`:
`heading_text.lower().replace(" ", "_").replace("★", "")`. -/
def slugOf (s : String) : String := pyReplace (pyReplace (pyLower s) " " "_") "★" ""

/-- `"#" * level`. -/
def hashesOf (lv : Nat) : String := String.mk (List.replicate lv '#')

/-- `append_heading(level, text)`. -/
def append_heading (level : Nat) (text : String) (st : ExtState) : ExtState :=
  let headingText := clean_text text
  if should_skip_text headingText then st
  else
    let lv := max 1 (min level 6)
    let st := ensureParagraphBreak st
    let st :=
      if lv ≤ 2 then
        let jd :=
          if !st.sectionParts.isEmpty then
            let content := pyStrip (String.join st.sectionParts)
            if content ≠ "" then dictInsert st.jsonData st.currentSection content
            else st.jsonData
          else st.jsonData
        { st with jsonData := jd, currentSection := slugOf headingText, sectionParts := [] }
      else
        { st with sectionParts := st.sectionParts ++ [hashesOf lv ++ " " ++ headingText ++ "\n\n"] }
    { st with textParts := st.textParts ++ [hashesOf lv ++ " " ++ headingText ++ "\n", "\n"] }

/-- `re.sub(r'\s*\|\s*', ' ', s)`: each whitespace-flanked pipe becomes one
space.  The Bool flag records whether trailing whitespace of a match is
being consumed; the first list holds a pending whitespace run, reversed. -/
def removePipesAux : Bool → List Char → List Char → List Char
  | _, pend, [] => pend.reverse
  | swallow, pend, c :: cs =>
    if isWsChar c then
      if swallow then removePipesAux true pend cs
      else removePipesAux false (c :: pend) cs
    else if c = '|' then ' ' :: removePipesAux true [] cs
    else pend.reverse ++ c :: removePipesAux false [] cs

/-- The per-cell text of `append_table`. -/
def tableCellText (cell : Node) : String :=
  let cellText := pyStrip (String.join (etwrNode cell))
  let cellText := collapseWs cellText
  String.mk (removePipesAux false [] cellText.data)

/-- The surviving rows of `append_table`: rows with every cell empty are
dropped. -/
def tableRowsOf (tableTag : Node) : List (List String) :=
  ((findAllBy (fun n => tagOf n == "tr") tableTag).map (fun tr =>
    (findAllBy (fun n => tagOf n == "th" || tagOf n == "td") tr).map tableCellText)).filter
    (fun cells => cells.any (fun c => c ≠ ""))

/-- The lines emitted by `append_table` (to both `text_parts` and
`current_section_parts`). -/
def renderTable (tableTag : Node) : List String :=
  let rows := tableRowsOf tableTag
  if rows.isEmpty then []
  else
    ["\n", "[Table]\n"] ++
    (rows.filterMap (fun row =>
      let line := String.intercalate " | " row
      if pyStrip line ≠ "" then some (line ++ "\n") else none)) ++
    ["\n"]

/-- `append_table(table_tag, indent)` as a state transformer. -/
def appendTableSt (tableTag : Node) (st : ExtState) : ExtState :=
  { st with textParts := st.textParts ++ renderTable tableTag,
            sectionParts := st.sectionParts ++ renderTable tableTag }

/-- The six heading tag names. -/
def headingTagNames : List String := ["h1", "h2", "h3", "h4", "h5", "h6"]

/-- `int(name[1])` for a heading tag name. -/
def headingLevelOf (t : String) : Nat :=
  if t == "h1" then 1 else if t == "h2" then 2 else if t == "h3" then 3
  else if t == "h4" then 4 else if t == "h5" then 5 else if t == "h6" then 6 else 0

/- `append_content(node, indent)` and `append_list(list_tag, indent)`,
mutually recursive over the tree. -/
mutual
def appendContent (node : Node) (indent : Nat) (st : ExtState) : ExtState :=
  match node with
  | Node.text s => append_line (clean_text s) indent false st
  | Node.elem t a c =>
    let name := pyLower t
    if nodeMem st.footnoteElems (Node.elem t a c) then st
    else if skipNames.contains name then st
    else if attrD (Node.elem t a c) "aria-hidden" == "true" then st
    else if pyLower (attrD (Node.elem t a c) "id") == "references" then st
    else if name == "figure" || pyLower (attrD (Node.elem t a c) "data-component") == "figure" then
      match findFirstBy (fun m => tagOf m == "table") (Node.elem t a c) with
      | some tb => appendTableSt tb st
      | none => st
    else
      let classes := (classesOf (Node.elem t a c)).map pyLower
      if classes.any (fun cls => containsSub cls "figure-wrap") then
        match findFirstBy (fun m => tagOf m == "table") (Node.elem t a c) with
        | some tb => appendTableSt tb st
        | none => st
      else if classes.any (fun cls => containsSub cls "figure") then
        match findFirstBy (fun m => tagOf m == "table") (Node.elem t a c) with
        | some tb => appendTableSt tb st
        | none => st
      else if classes.any (fun cls => containsSub cls "sidebar") then st
      else if (name == "aside" || name == "div" || name == "section") &&
              classes.any (fun cls => containsSub cls "footnote") then st
      else if name == "sup" || name == "sub" || name == "span" || name == "a" ||
              name == "strong" || name == "em" || name == "i" || name == "b" then st
      else if name == "br" then st
      else if headingTagNames.contains name then
        let headingText := pyStrip (collapseSpaces (String.join (etwrNode (Node.elem t a c))))
        if headingText ≠ "" then append_heading (min (headingLevelOf name) 6) headingText st
        else st
      else
        let roleAttr := pyLower (attrD (Node.elem t a c) "role")
        if roleAttr == "doc-footnote" then st
        else if (name == "p" || name == "blockquote" || roleAttr == "paragraph") &&
                (findFirstBy (fun m => tagOf m == "table") (Node.elem t a c)).isNone then
          let paragraph := String.join (etwrNode (Node.elem t a c))
          let paragraph := pyStrip (collapseSpaces paragraph)
          let paragraph := fixSpacePunct paragraph
          let paragraph := fixPunctLetter paragraph
          let inlineNotes :=
            collect_inline_footnotes st.footnoteMap st.footnoteInRefs (Node.elem t a c)
          let paragraph :=
            if !inlineNotes.isEmpty then
              paragraph ++ " (Footnote: " ++ String.intercalate "; " inlineNotes ++ ")"
            else paragraph
          if paragraph ≠ "" then append_line paragraph indent true st else st
        else if name == "ul" || name == "ol" then appendListTag (Node.elem t a c) indent st
        else if name == "table" then appendTableSt (Node.elem t a c) st
        else
          let isContainer := name == "section" ||
            classes.any (fun cls => containerKeywords.any (fun kw => containsSub cls kw)) ||
            hasAttrN (Node.elem t a c) "data-core-component"
          let nextIndent := if isContainer then min (indent + indentStep) maxIndent else indent
          let st2 := appendContentList c nextIndent st
          if isContainer then ensureParagraphBreak st2 else st2
termination_by 5 * nsize node + 3
decreasing_by all_goals first
  | omega
  | (simp [nsize]; omega)

def appendContentList (l : List Node) (indent : Nat) (st : ExtState) : ExtState :=
  match l with
  | [] => st
  | n :: ns => appendContentList ns indent (appendContent n indent st)
termination_by 5 * lsize l + 4
decreasing_by
  · simp [lsize]; omega
  · have hp : 1 ≤ nsize n := by cases n <;> simp [nsize]
    simp [lsize]; omega

def appendListTag (listTag : Node) (indent : Nat) (st : ExtState) : ExtState :=
  let items := directChildrenNamed ["li"] listTag
  if items.isEmpty then st
  else
    let st2 := appendListItems (tagOf listTag == "ol") items 1 indent st
    ensureParagraphBreak st2
termination_by 5 * nsize listTag + 2
decreasing_by
  have hfil : ∀ (p : Node → Bool) (xs : List Node), lsize (xs.filter p) ≤ lsize xs := by
    intro p xs
    induction xs with
    | nil => simp [lsize]
    | cons x rest ih =>
      by_cases hx : p x
      · simp [List.filter_cons, hx, lsize]; omega
      · simp [List.filter_cons, hx, lsize]; omega
  have hch : lsize (childrenOf listTag) + 1 ≤ nsize listTag := by
    cases listTag <;> simp [childrenOf, nsize, lsize] <;> omega
  have := hfil (fun c => isElem c && (["li"] : List String).contains (tagOf c)) (childrenOf listTag)
  simp only [directChildrenNamed]
  omega

def appendListItems (ol : Bool) : List Node → Nat → Nat → ExtState → ExtState
  | [], _, _, st => st
  | item :: rest, idx, indent, st =>
    let bullet := if ol then toString idx ++ ". " else "- "
    let fullText := pyStrip (String.join (etwrNode item))
    let fullText := collapseSpaces fullText
    let nestedLists := directChildrenNamed ["ul", "ol"] item
    let fullText := nestedLists.foldl (fun ft nested =>
      let nestedText := pyStrip (String.join (etwrNode nested))
      pyReplace ft nestedText "") fullText
    let fullText := clean_text fullText
    let st2 := if fullText ≠ "" then append_line (bullet ++ fullText) indent true st
               else append_line (pyStrip bullet) indent true st
    let st3 := appendNestedLists nestedLists (min (indent + indentStep) maxIndent) st2
    appendListItems ol rest (idx + 1) indent st3
termination_by items _ _ _ => 5 * lsize items + 1
decreasing_by
  · have hfil : ∀ (p : Node → Bool) (xs : List Node), lsize (xs.filter p) ≤ lsize xs := by
      intro p xs
      induction xs with
      | nil => simp [lsize]
      | cons x rest2 ih =>
        by_cases hx : p x
        · simp [List.filter_cons, hx, lsize]; omega
        · simp [List.filter_cons, hx, lsize]; omega
    have hch : lsize (childrenOf item) + 1 ≤ nsize item := by
      cases item <;> simp [childrenOf, nsize, lsize] <;> omega
    have := hfil (fun c => isElem c && (["ul", "ol"] : List String).contains (tagOf c))
      (childrenOf item)
    simp only [directChildrenNamed, lsize]
    omega
  · simp [lsize]
    have hp : 1 ≤ nsize item := by cases item <;> simp [nsize]
    omega

def appendNestedLists (nested : List Node) (indent : Nat) (st : ExtState) : ExtState :=
  match nested with
  | [] => st
  | n :: ns => appendNestedLists ns indent (appendListTag n indent st)
termination_by 5 * lsize nested + 3
decreasing_by
  · simp [lsize]; omega
  · have hp : 1 ≤ nsize n := by cases n <;> simp [nsize]
    simp [lsize]; omega
end

/-- `"=" * 80`. -/
def eq80 : String := String.mk (List.replicate 80 '=')

/-- `soup.find("meta", attrs)` for a `name=` attribute match. -/
def findMetaNamed (doc : Node) (nm : String) : Option Node :=
  findFirstBy (fun n => tagOf n == "meta" && attrD n "name" == nm) doc

/-- The author CSS selector union of the header block:
`a[rel="author"], span[data-test="author-name"], span.author-name,
span[itemprop="name"], a[itemprop="name"]`. -/
def headerAuthorSel (n : Node) : Bool :=
  (tagOf n == "a" && attrD n "rel" == "author") ||
  (tagOf n == "span" && attrD n "data-test" == "author-name") ||
  (tagOf n == "span" && (classesOf n).contains "author-name") ||
  (tagOf n == "span" && attrD n "itemprop" == "name") ||
  (tagOf n == "a" && attrD n "itemprop" == "name")

/-- Order-preserving dedup of non-empty strings
(`if x and x not in acc: acc.append(x)`). -/
def dedupKeep (l : List String) : List String :=
  l.foldl (fun acc x => if x ≠ "" && !acc.contains x then acc ++ [x] else acc) []

/-- The `data-core-wrapper="header"` block of the primary path (title,
authors, journal, date, DOI, keywords from metadata, with visible-text
fallbacks). -/
def headerBlock (doc hw : Node) (st : ExtState) : ExtState :=
  let st := { st with
    textParts := st.textParts ++ [eq80 ++ "\n", "ARTICLE HEADER\n", eq80 ++ "\n\n"] }
  let metaTitle := match findMetaNamed doc "citation_title" with
    | some m => some m
    | none => findFirstBy (fun n => tagOf n == "meta" && attrD n "property" == "og:title") doc
  let title := match metaTitle with
    | some m => if attrD m "content" ≠ "" then clean_text (attrD m "content") else ""
    | none => ""
  let title :=
    if title = "" then
      match findFirstBy (fun n => tagOf n == "h1") hw with
      | some h => clean_text (getTextSepStrip " " h)
      | none => ""
    else title
  let st := if title ≠ "" then append_heading 1 title st else st
  let authorMeta :=
    (findAllBy (fun n => tagOf n == "meta" && attrD n "name" == "citation_author") doc).map
      (fun m => clean_text (attrD m "content"))
  let authors := dedupKeep authorMeta
  let authors :=
    if authors.isEmpty then
      (findAllBy headerAuthorSel hw).foldl (fun acc tg =>
        let nameText :=
          clean_text (pyReplace (getTextSepStrip " " tg) "Search for articles by this author" "")
        if should_skip_text nameText then acc
        else if nameText ≠ "" && !acc.contains nameText then acc ++ [nameText] else acc) []
    else authors
  let st := if !authors.isEmpty then
      append_line ("Authors: " ++ String.intercalate ", " authors) 0 true st
    else st
  let st := match findMetaNamed doc "citation_journal_title" with
    | some m =>
      if attrD m "content" ≠ "" then
        append_line ("Journal: " ++ clean_text (attrD m "content")) 0 true st
      else st
    | none => st
  let dateMeta := match findMetaNamed doc "citation_publication_date" with
    | some m => some m
    | none => findMetaNamed doc "dc.Date"
  let st := match dateMeta with
    | some m =>
      if attrD m "content" ≠ "" then
        append_line ("Publication Date: " ++ clean_text (attrD m "content")) 0 true st
      else st
    | none => st
  let st := match findMetaNamed doc "citation_doi" with
    | some m =>
      if attrD m "content" ≠ "" then
        append_line ("DOI: " ++ clean_text (attrD m "content")) 0 true st
      else st
    | none => st
  let keywords := dedupKeep
    ((findAllBy (fun n => tagOf n == "meta" && attrD n "name" == "citation_keywords") doc).map
      (fun m => clean_text (attrD m "content")))
  let st := if !keywords.isEmpty then
      append_line ("Keywords: " ++ String.intercalate ", " keywords) 0 true st
    else st
  ensureParagraphBreak st

/-- The primary extraction path: the `<article>` wrapper with its header and
content regions. -/
def primaryPass (doc : Node) (st : ExtState) : ExtState :=
  match findFirstBy (fun n => tagOf n == "article") doc with
  | none => st
  | some article =>
    let st := match findFirstBy
        (fun n => tagOf n == "div" && attrD n "data-core-wrapper" == "header") article with
      | some hw => headerBlock doc hw st
      | none => st
    match findFirstBy
        (fun n => tagOf n == "div" && attrD n "data-core-wrapper" == "content") article with
    | some cw =>
      let st := { st with
        textParts := st.textParts ++ ["\n" ++ eq80 ++ "\n", "ARTICLE CONTENT\n", eq80 ++ "\n\n"] }
      appendContentList (childrenOf cw) 0 st
    | none => st

/-- The fallback extraction path (legacy selectors); it writes only into
`text_parts`, never into `json_data`. -/
def fallbackLines (doc : Node) : List String :=
  let tps : List String := []
  let titleElem := match findFirstBy
      (fun n => tagOf n == "h1" && attrD n "property" == "name") doc with
    | some t => some t
    | none => findFirstBy (fun n => tagOf n == "h1") doc
  let tps := match titleElem with
    | some t =>
      let title := getTextStrip t
      if title ≠ "" then tps ++ ["# " ++ title ++ "\n\n"] else tps
    | none => tps
  let tps := match findFirstBy
      (fun n => tagOf n == "div" && (classesOf n).contains "contributors") doc with
    | some ae =>
      let authors := getTextSepStrip ", " ae
      if authors ≠ "" then tps ++ ["AUTHORS: " ++ authors ++ "\n\n"] else tps
    | none => tps
  let tps := match findFirstBy
      (fun n => tagOf n == "section" && attrD n "id" == "author-abstract") doc with
    | some ab =>
      let tps := tps ++ ["## ABSTRACT\n\n"]
      (findAllBy (fun n => tagOf n == "p" || tagOf n == "div") ab).foldl (fun acc el =>
        let elText := getTextSepStrip " " el
        if elText ≠ "" then acc ++ [elText ++ "\n"] else acc) tps
    | none => tps
  let tps := match (selectAnc
      (fun n => tagOf n == "section" && attrD n "id" == "introduction") doc).head? with
    | some ip =>
      let tps := tps ++ ["\n## INTRODUCTION\n\n"]
      (selectAncList (fun n => (["h2", "h3", "h4", "p"] : List String).contains (tagOf n))
          (ip.1 :: ip.2) (childrenOf ip.1)).foldl
        (fun acc pr =>
          if tagOf pr.1 == "h2" || tagOf pr.1 == "h3" || tagOf pr.1 == "h4" then
            let lv := headingLevelOf (tagOf pr.1)
            let elText := getTextStrip pr.1
            if elText ≠ "" then acc ++ ["\n" ++ hashesOf lv ++ " " ++ elText ++ "\n\n"] else acc
          else
            let elText := getTextSepStrip " " pr.1
            if elText ≠ "" && (findParentIn ["figure"] pr.2).isNone then acc ++ [elText ++ "\n"]
            else acc)
        tps
    | none => tps
  let tps := match (selectAnc
      (fun n => tagOf n == "section" && attrD n "id" == "bodymatter") doc).head? with
    | some bp =>
      let tps := tps ++ ["\n## MAIN CONTENT\n\n"]
      (selectAncList
          (fun n => (["h2", "h3", "h4", "h5", "h6", "p"] : List String).contains (tagOf n))
          (bp.1 :: bp.2) (childrenOf bp.1)).foldl
        (fun acc pr =>
          if (["h2", "h3", "h4", "h5", "h6"] : List String).contains (tagOf pr.1) then
            let lv := headingLevelOf (tagOf pr.1)
            let elText := getTextStrip pr.1
            if elText ≠ "" then acc ++ ["\n" ++ hashesOf lv ++ " " ++ elText ++ "\n\n"] else acc
          else
            let elText := getTextSepStrip " " pr.1
            if elText ≠ "" && (findParentIn ["figure"] pr.2).isNone then acc ++ [elText ++ "\n"]
            else acc)
        tps
    | none => tps
  tps

/-- Caption-control button texts skipped in figure captions. -/
def figCtrlTexts : List String :=
  ["Hide caption", "Figure viewer", "Show caption", "Collapse", "Expand"]

/-- The two decompose passes applied to a figure caption before text
extraction: `div.dropBlock__holder`, then `span.dropBlock` containing no
`a[role="doc-biblioref"]`. -/
def pruneCaption (caption : Node) : Node :=
  let c1 := pruneBy (fun n => tagOf n == "div" && (classesOf n).contains "dropBlock__holder")
    caption
  pruneBy (fun n => tagOf n == "span" && (classesOf n).contains "dropBlock" &&
    (findFirstBy (fun m => tagOf m == "a" && attrD m "role" == "doc-biblioref") n).isNone) c1

/-- The apostrophe character (used by the Python `str` rendering of a class
list). -/
def sqChar : Char := Char.ofNat 39

/-- Python `str(class_list)`, e.g. a list rendered with quoted items. -/
def pyStrOfClassList (cls : List String) : String :=
  "[" ++ String.intercalate ", "
    (cls.map (fun c => String.singleton sqChar ++ c ++ String.singleton sqChar)) ++ "]"

/-- Processing of one `<figure>` (1-based index `idx`): caption pruning,
label/title extraction, caption paragraph collection.  Accumulates
`(text_parts additions, figures_text)`. -/
def processOneFigure (idx : Nat) (figPair : Node × List Node)
    (acc : List String × List String) : List String × List String :=
  let fig := figPair.1
  match (selectAncList (fun n => tagOf n == "figcaption") (fig :: figPair.2)
      (childrenOf fig)).head? with
  | none => acc
  | some cp =>
    let caption := pruneCaption cp.1
    let capAnc := cp.2
    let figLabel := findFirstBy
      (fun n => tagOf n == "span" && (classesOf n).contains "label") caption
    let figTitle := findFirstBy
      (fun n => tagOf n == "span" && (classesOf n).contains "figure__title__text") caption
    let labelTitle :=
      if figLabel.isSome || figTitle.isSome then
        let labelText := match figLabel with
          | some l => pyStrip (String.join (etwrNode l))
          | none => "Figure " ++ toString idx
        let titleText := match figTitle with
          | some tt => pyStrip (String.join (etwrNode tt))
          | none => ""
        some (labelText, titleText)
      else none
    let r1 := match labelTitle with
      | some lt =>
        if lt.2 ≠ "" then
          (acc.1 ++ ["\n### " ++ lt.1, ": " ++ lt.2, "\n\n"], [lt.1 ++ ": " ++ lt.2])
        else (acc.1 ++ ["\n### " ++ lt.1, "\n\n"], [lt.1])
      | none => (acc.1, ([] : List String))
    let contentPair := match (selectAncList
        (fun n => tagOf n == "div" && (classesOf n).contains "figure__caption__text__content")
        (caption :: capAnc) (childrenOf caption)).head? with
      | some pr => pr
      | none => match (selectAncList
          (fun n => tagOf n == "div" && (classesOf n).contains "accordion__content")
          (caption :: capAnc) (childrenOf caption)).head? with
        | some pr => pr
        | none => (caption, capAnc)
    let paras := selectAncList (fun n => tagOf n == "div" || tagOf n == "p")
      (contentPair.1 :: contentPair.2) (childrenOf contentPair.1)
    let r2 :=
      if !paras.isEmpty then
        paras.foldl (fun (a : List String × List String) pr =>
          if tagOf pr.1 == "button" || (classesOf pr.1).contains "button" then a
          else
            let skipLabel := match findParentIn ["span"] pr.2 with
              | some sp => containsSub (pyStrOfClassList (classesOf sp.1)) "label"
              | none => false
            if skipLabel then a
            else
              let paraText := collapseSpaces (pyStrip (String.join (etwrNode pr.1)))
              if paraText ≠ "" && 10 < paraText.length then
                if !figCtrlTexts.contains paraText then
                  (a.1 ++ [paraText ++ "\n\n"], a.2 ++ [paraText])
                else a
              else a) r1
      else
        let captionText := collapseSpaces (pyStrip (String.join (etwrNode caption)))
        if captionText ≠ "" then
          let captionText := pyReplace (pyReplace (pyReplace (pyReplace (pyReplace
            captionText "Hide caption" "") "Figure viewer" "") "Show caption" "")
            "Collapse" "") "Expand" ""
          let captionText := wsNormJoin captionText
          if captionText ≠ "" then (r1.1 ++ [captionText ++ "\n\n"], r1.2 ++ [captionText])
          else r1
        else r1
    if !r2.2.isEmpty then (r2.1, acc.2 ++ [String.intercalate "\n" r2.2])
    else (r2.1, acc.2)

/-- The figure-caption block (lines 839-934 of the source): additions to
`text_parts` and the collected `figures_text` entries. -/
def processFigures (doc : Node) : List String × List String :=
  let figs := selectAnc (fun n => tagOf n == "figure") doc
  if figs.isEmpty then ([], [])
  else
    let init : List String × List String :=
      (["\n" ++ eq80 ++ "\n", "FIGURES\n", eq80 ++ "\n\n"], [])
    (figs.foldl (fun (a : Nat × (List String × List String)) fp =>
      (a.1 + 1, processOneFigure a.1 fp a.2)) (1, init)).2

/-- First decompose pass of the engine: `button, nav, script, style, iframe,
aside` elements are removed. -/
def pruneUnwantedTags (raw : Node) : Node :=
  pruneBy (fun n =>
    (["button", "nav", "script", "style", "iframe", "aside"] : List String).contains (tagOf n))
    raw

/-- The `ui_classes` list. -/
def uiClasses : List String :=
  ["show-more", "show-less", "expand", "collapse", "toggle", "button", "nav", "menu",
   "footer", "sidebar", "advertisement", "social-share", "download-link", "metrics",
   "altmetric"]

/-- Second decompose pass: elements with a class containing one of the
`ui_classes` markers (case-insensitive), one pass per marker. -/
def pruneUiClasses (doc : Node) : Node :=
  uiClasses.foldl (fun d uc =>
    pruneBy (fun n => (classesOf n).any (fun cls => containsSub (pyLower cls) uc)) d) doc

/-- The tree every later stage of one extraction call observes. -/
def prunedOf (raw : Node) : Node := pruneUiClasses (pruneUnwantedTags raw)

/-- `soup.find("section", id="references")`. -/
def refsSecOf (doc : Node) : Option Node :=
  findFirstBy (fun n => tagOf n == "section" && attrD n "id" == "references") doc

/-- The final flush of `current_section_parts` into `json_data` under
`current_section` (lines 941-944 of the source, run at end of document
after the figures block). -/
def finalSectionFlush (jd : List (String × String)) (currentSection : String)
    (sectionParts : List String) : List (String × String) :=
  if !sectionParts.isEmpty then
    let content := pyStrip (String.join sectionParts)
    if content ≠ "" then dictInsert jd currentSection content else jd
  else jd

/-- The fresh state at the start of one extraction call. -/
def initState (fn : FnState) : ExtState :=
  ⟨[], "header", [], [], [], none, fn.map, fn.inRefs, fn.elems⟩

/-- The whole pure pipeline of `extract_fulltext_as_json` on an
already-parsed document: prune, footnote pre-pass, primary path, fallback
path, figures, final section flush, references, final emptiness gate.
Returns `none` exactly when both the section map and the flattened text are
empty. -/
def extractDocument (raw : Node) : Option (List (String × String)) :=
  let doc := prunedOf raw
  let refsSec := refsSecOf doc
  let fn := buildFootnoteMap doc refsSec
  let st1 := primaryPass doc (initState fn)
  let st2 := if st1.textParts.isEmpty then { st1 with textParts := fallbackLines doc } else st1
  let figs := processFigures doc
  let st3 := { st2 with textParts := st2.textParts ++ figs.1 }
  let jd1 := if !figs.2.isEmpty then
      dictInsert st3.jsonData "figures" (String.intercalate "\n\n" figs.2)
    else st3.jsonData
  let jd2 := finalSectionFlush jd1 st3.currentSection st3.sectionParts
  let refEntries := get_reference_entries refsSec fn.map fn.inRefs
  let tj :=
    if !refEntries.isEmpty &&
       !(containsSub (String.intercalate "\n" st3.textParts) "REFERENCES") then
      let refLines := (refEntries.foldl (fun (a : Nat × List String) e =>
        (a.1 + 1, a.2 ++ [toString a.1 ++ ". " ++ e])) (1, [])).2
      (st3.textParts ++ ["\n" ++ eq80 ++ "\n", "REFERENCES\n", eq80 ++ "\n\n"] ++
         refLines.map (fun l => l ++ "\n"),
       if !refLines.isEmpty then
         dictInsert jd2 "references" (String.intercalate "\n" refLines)
       else jd2)
    else (st3.textParts, jd2)
  let fullText := String.join tj.1
  if !tj.2.isEmpty || pyStrip fullText ≠ "" then some tj.2 else none

/-- The engine result as the boundary `try/except` of
`extract_fulltext_as_json` delivers it: any raised internal error is caught
and converted to `None`; otherwise the emptiness gate of the successful body
applies. -/
def engineBoundary (body : Except String (List (String × String) × String)) :
    Option (List (String × String)) :=
  match body with
  | Except.error _ => none
  | Except.ok r => if !r.1.isEmpty || pyStrip r.2 ≠ "" then some r.1 else none

/-- Two runs of the engine over the same unchanged input tree: each call
re-parses the page content afresh, so the second run observes the same tree
as the first. -/
def extractTwice (raw : Node) :
    Option (List (String × String)) × Option (List (String × String)) :=
  (extractDocument raw, extractDocument raw)

/-- A whitespace-only string node (swallowed without flushing between
citations). -/
def isSepTextNode : Node → Bool
  | Node.text s => pyStrip s == ""
  | Node.elem _ _ _ => false

/-- A `sup`/`sub` node whose whole stripped text is one separator token. -/
def isSepSupNode (n : Node) : Bool :=
  (tagOf n == "sup" || tagOf n == "sub") && sepTokens.contains (getTextStrip n)

/-- An inline wrapper (`span`/`strong`/`em`/`i`/`b`) whose flattened text,
stripped, is one separator token. -/
def isSepWrapperNode (n : Node) : Bool :=
  wrapperTags.contains (tagOf n) &&
  sepTokens.contains (pyStrip (String.join (etwrNode n)))

/-- A node the citation-grouping walk swallows without flushing. -/
def isRunSep (n : Node) : Bool :=
  isSepTextNode n || isSepSupNode n || isSepWrapperNode n

/-- The marker number of a citation anchor: an `a[role="doc-biblioref"]`
with a nested `sup`, whose stripped text is the marker. -/
def citeMarkerOf (n : Node) : Option String :=
  if tagOf n == "a" && attrD n "role" == "doc-biblioref" then
    (findFirstBy (fun m => tagOf m == "sup") n).map getTextStrip
  else none

/-- The marker numbers of a run of citation anchors, in encounter order. -/
def runMarkers (run : List Node) : List String := run.filterMap citeMarkerOf

/-- The flattened insertion stream of `build_footnote_map`: all
`(normalized id, text, in_refs)` triples in discovery order, duplicates
included (the map construction keeps the first occurrence of each id). -/
def fnInsertStream (doc : Node) (refsSec : Option Node) : List (String × String × Bool) :=
  (fnCandidates doc).foldl (fun acc cd =>
    match candRecord refsSec cd.1 cd.2 with
    | none => acc
    | some r => acc ++ r.1.map (fun i => (i, r.2.1, r.2.2.1))) []

/-- The resolved normalized ids of the superscripts of one inline run, in
encounter order (each `sup` contributes its own candidate attribute ids,
falling back to its nested anchors). -/
def supResolvedIds (container : Node) : List String :=
  (findAllBy (fun m => tagOf m == "sup") container).foldl (fun acc sup =>
    let c1 := extract_candidate_ids sup
    let cids := if c1.isEmpty then
        (findAllBy (fun m => tagOf m == "a") sup).foldl
          (fun a2 anchor => a2 ++ extract_candidate_ids anchor) []
      else c1
    acc ++ cids.map normalize_identifier) []

/-- Modelled from the specification sentence for inline footnote
enrichment: given the resolved normalized ids of a paragraph in encounter
order, keep each id that exists in the footnote index with
`in_references = false`, contribute its resolved text, and deduplicate by
id; ids flagged `in_references = true` or absent contribute nothing. -/
def inlineNotesSpec (fm : List (String × String)) (fr : List (String × Bool)) :
    List String → List String → List String
  | [], _ => []
  | i :: is, seen =>
    if i = "" || seen.contains i then inlineNotesSpec fm fr is seen
    else if (lookupBool fr i).getD false then inlineNotesSpec fm fr is seen
    else match lookupStr fm i with
      | none => inlineNotesSpec fm fr is seen
      | some txt => txt :: inlineNotesSpec fm fr is (seen ++ [i])

/-- One insertion event of the `for normalized_id in normalized_ids` loop of
`build_footnote_map`, as a step over the flattened insertion stream: an id
already in `seen_ids` is ignored, otherwise its text and `in_refs` flag are
recorded. -/
def fnInsert1 (st : FnState) (p : String × String × Bool) : FnState :=
  if st.seen.contains p.1 then st
  else { st with map := st.map ++ [(p.1, p.2.1)],
                 inRefs := st.inRefs ++ [(p.1, p.2.2)],
                 seen := st.seen ++ [p.1] }

/-- The insertion-stream contribution of one selector match of
`build_footnote_map`. -/
def candStream (refsSec : Option Node) (cd : Node × List Node) :
    List (String × String × Bool) :=
  match candRecord refsSec cd.1 cd.2 with
  | none => []
  | some r => r.1.map (fun i => (i, r.2.1, r.2.2.1))

/-- One id-processing step of the inner fold of `collect_inline_footnotes`,
on an already-normalized id. -/
def inlineStep (fm : List (String × String)) (fr : List (String × Bool))
    (acc2 : List String × List String) (normalized : String) :
    List String × List String :=
  if normalized = "" || acc2.2.contains normalized then acc2
  else if (lookupBool fr normalized).getD false then acc2
  else match lookupStr fm normalized with
    | none => acc2
    | some noteText =>
      if noteText = "" then acc2
      else (acc2.1 ++ [noteText], acc2.2 ++ [normalized])

/-- The candidate raw ids of one superscript in
`collect_inline_footnotes`: its own candidate attributes, falling back to
its nested anchors. -/
def supCids (sup : Node) : List String :=
  let c1 := extract_candidate_ids sup
  if c1.isEmpty then
    (findAllBy (fun m => tagOf m == "a") sup).foldl
      (fun a anchor => a ++ extract_candidate_ids anchor) []
  else c1

instance : IsTrans String refIdLe := by
  constructor
  intro a b c hab hbc
  unfold refIdLe keyLe at *
  rcases hab with h1 | ⟨h1, h2⟩ <;> rcases hbc with h3 | ⟨h3, h4⟩
  · exact Or.inl (Nat.lt_trans h1 h3)
  · exact Or.inl (h3 ▸ h1)
  · exact Or.inl (h1 ▸ h3)
  · exact Or.inr ⟨h1.trans h3, le_trans h2 h4⟩

instance : IsTotal String refIdLe := by
  constructor
  intro a b
  unfold refIdLe keyLe
  rcases Nat.lt_trichotomy (reference_sort_key a).1 (reference_sort_key b).1 with h | h | h
  · exact Or.inl (Or.inl h)
  · rcases le_total (reference_sort_key a).2 (reference_sort_key b).2 with h2 | h2
    · exact Or.inl (Or.inr ⟨h, h2⟩)
    · exact Or.inr (Or.inr ⟨h.symm, h2⟩)
  · exact Or.inr (Or.inl h)

/-! ### Helper lemmas -/

theorem etwrList_append_split (pisr : Bool) (xs ys : List Node)
    (st : List String × List String) :
    etwrList (xs ++ ys) pisr st = etwrList ys pisr (etwrList xs pisr st) := by
  induction xs generalizing st with
  | nil => rfl
  | cons n ns ih => rw [List.cons_append]; exact ih _

theorem etwrStep_sep (pisr : Bool) (n : Node) (st : List String × List String)
    (h : isRunSep n = true) : etwrStep n pisr st = st := by
  cases n with
  | text s =>
    have h1 : isSepSupNode (Node.text s) = false := by
      simp [isSepSupNode, tagOf]
    have h2 : isSepWrapperNode (Node.text s) = false := by
      unfold isSepWrapperNode
      rw [show tagOf (Node.text s) = "" from rfl,
        show wrapperTags.contains "" = false from by decide, Bool.false_and]
    have hs2 : pyStrip s = "" := by
      simp only [isRunSep, h1, h2, Bool.or_false, isSepTextNode] at h
      simpa using h
    simp [etwrStep, hs2]
  | elem t a c =>
    simp only [isRunSep, isSepTextNode, isSepSupNode, isSepWrapperNode, Bool.or_eq_true,
      Bool.and_eq_true, tagOf] at h
    rcases h with (h | hsup) | hwrap
    · exact absurd h (by simp)
    · rcases hsup with ⟨ht, hsep⟩
      have hsep2 : getTextStrip (Node.elem t a c) ∈ sepTokens := by simpa using hsep
      rcases ht with ht | ht
      · have ht2 : t = "sup" := by simpa using ht
        subst ht2
        simp +decide [etwrStep, hsep2]
      · have ht2 : t = "sub" := by simpa using ht
        subst ht2
        simp +decide [etwrStep, hsep2]
    · rcases hwrap with ⟨ht, hsep⟩
      have hmem : t ∈ wrapperTags := by simpa using ht
      have ht2 : t = "span" ∨ t = "strong" ∨ t = "em" ∨ t = "i" ∨ t = "b" := by
        simpa [wrapperTags] using hmem
      rcases ht2 with rfl | rfl | rfl | rfl | rfl <;>
      · simp only [etwrNode, etwrSub] at hsep
        simp at hsep
        simp +decide [etwrStep, hsep]

theorem etwrStep_cite (pisr : Bool) (n : Node) (st : List String × List String)
    (m : String) (h : citeMarkerOf n = some m) :
    etwrStep n pisr st = (st.1, st.2 ++ [m]) := by
  cases n with
  | text s => simp [citeMarkerOf, tagOf] at h
  | elem t a c =>
    unfold citeMarkerOf at h
    split at h
    · rename_i hcond
      have hcond2 := hcond
      simp only [tagOf, Bool.and_eq_true, beq_iff_eq] at hcond2
      obtain ⟨rfl, hrole⟩ := hcond2
      obtain ⟨sup, hfind, hm⟩ : ∃ sup,
          findFirstBy (fun m2 => tagOf m2 == "sup") (Node.elem "a" a c) = some sup ∧
          getTextStrip sup = m := by
        cases hf : findFirstBy (fun m2 => tagOf m2 == "sup") (Node.elem "a" a c) with
        | none => rw [hf] at h; simp at h
        | some sup => rw [hf] at h; simp at h; exact ⟨sup, rfl, h⟩
      subst hm
      simp +decide [etwrStep, hrole, hfind]
    · simp at h

theorem citeMarkerOf_none_of_sep (n : Node) (h : isRunSep n = true) :
    citeMarkerOf n = none := by
  cases n with
  | text s => simp [citeMarkerOf, tagOf]
  | elem t a c =>
    simp only [isRunSep, isSepTextNode, isSepSupNode, isSepWrapperNode, Bool.or_eq_true,
      Bool.and_eq_true, tagOf] at h
    rcases h with (h | hsup) | hwrap
    · exact absurd h (by simp)
    · rcases hsup with ⟨ht, _⟩
      rcases ht with ht | ht
      · have ht2 : t = "sup" := by simpa using ht
        subst ht2; simp [citeMarkerOf, tagOf]
      · have ht2 : t = "sub" := by simpa using ht
        subst ht2; simp [citeMarkerOf, tagOf]
    · rcases hwrap with ⟨ht, _⟩
      have hmem : t ∈ wrapperTags := by simpa using ht
      have ht2 : t = "span" ∨ t = "strong" ∨ t = "em" ∨ t = "i" ∨ t = "b" := by
        simpa [wrapperTags] using hmem
      rcases ht2 with rfl | rfl | rfl | rfl | rfl <;> simp [citeMarkerOf, tagOf]

theorem etwrList_run (pisr : Bool) (run : List Node) (st : List String × List String)
    (h : ∀ n ∈ run, isRunSep n = true ∨ (citeMarkerOf n).isSome = true) :
    etwrList run pisr st = (st.1, st.2 ++ runMarkers run) := by
  induction run generalizing st with
  | nil => simp [etwrList, runMarkers]
  | cons n ns ih =>
    show etwrList ns pisr (etwrStep n pisr st) = _
    rcases h n (List.mem_cons_self n ns) with hsep | hcite
    · rw [etwrStep_sep pisr n st hsep,
        ih _ (fun x hx => h x (List.mem_cons_of_mem _ hx))]
      simp [runMarkers, citeMarkerOf_none_of_sep n hsep]
    · obtain ⟨m, hm⟩ := Option.isSome_iff_exists.mp hcite
      rw [etwrStep_cite pisr n st m hm,
        ih _ (fun x hx => h x (List.mem_cons_of_mem _ hx))]
      simp [runMarkers, hm]

theorem etwrStep_shift (pisr : Bool) (n : Node) (p q pd : List String) :
    etwrStep n pisr (p ++ q, pd) =
      (p ++ (etwrStep n pisr (q, pd)).1, (etwrStep n pisr (q, pd)).2) := by
  cases n with
  | text s =>
    by_cases h : pyStrip s = "" <;> simp [etwrStep, h]
  | elem t a c =>
    simp only [etwrStep]
    repeat' split
    all_goals first | rfl | simp

theorem etwrList_shift (pisr : Bool) (l : List Node) (p q pd : List String) :
    etwrList l pisr (p ++ q, pd) =
      (p ++ (etwrList l pisr (q, pd)).1, (etwrList l pisr (q, pd)).2) := by
  induction l generalizing q pd with
  | nil => simp [etwrList]
  | cons n ns ih =>
    show etwrList ns pisr (etwrStep n pisr (p ++ q, pd)) = _
    rw [etwrStep_shift]
    have h2 := ih (etwrStep n pisr (q, pd)).1 (etwrStep n pisr (q, pd)).2
    simpa [etwrList] using h2

/-- C1.  Citation grouping: inside one inline run, a maximal run of
citation anchors (each an `a[role="doc-biblioref"]` with a nested `sup`
carrying the marker), separated only by separator-token `sup`/`sub` nodes,
separator-token inline wrappers, or whitespace-only text, is rendered as
exactly one annotation `" (Ref: n1, n2, ...)"` in encounter order — flushed
immediately before the next non-separator content (here: a non-whitespace
text fragment) and, when the run ends the element, at the end of the run. -/
theorem citation_grouping (t : String) (a : List (String × String))
    (run tl : List Node) (s : String)
    (hrun : ∀ n ∈ run, isRunSep n = true ∨ (citeMarkerOf n).isSome = true)
    (hms : runMarkers run ≠ [])
    (hs : pyStrip s ≠ "") :
    etwrNode (Node.elem t a (run ++ Node.text s :: tl)) =
      (" (Ref: " ++ String.intercalate ", " (runMarkers run) ++ ")") :: s ::
        etwrNode (Node.elem t a tl)
    ∧ etwrNode (Node.elem t a run) =
        [" (Ref: " ++ String.intercalate ", " (runMarkers run) ++ ")"] := by
  have hflush : flushAnn (runMarkers run) =
      [" (Ref: " ++ String.intercalate ", " (runMarkers run) ++ ")"] := by
    simp [flushAnn, hms]
  have key : ∀ pisr : Bool,
      etwrList (run ++ Node.text s :: tl) pisr ([], []) =
      ((" (Ref: " ++ String.intercalate ", " (runMarkers run) ++ ")") :: s ::
         (etwrList tl pisr ([], [])).1, (etwrList tl pisr ([], [])).2) := by
    intro pisr
    rw [etwrList_append_split, etwrList_run _ _ _ hrun]
    show etwrList tl pisr (etwrStep (Node.text s) pisr ([], runMarkers run)) = _
    rw [show etwrStep (Node.text s) pisr ([], runMarkers run) =
        ([" (Ref: " ++ String.intercalate ", " (runMarkers run) ++ ")", s], []) from by
      simp [etwrStep, hs, hflush]]
    have h2 := etwrList_shift pisr tl
      [" (Ref: " ++ String.intercalate ", " (runMarkers run) ++ ")", s] [] []
    simpa using h2
  constructor
  · show etwrSub t a (run ++ Node.text s :: tl) = _
    unfold etwrSub
    rw [key]
    simp [etwrNode, etwrSub, attrD, getAttr]
  · show etwrSub t a run = _
    unfold etwrSub
    rw [etwrList_run _ _ _ hrun]
    simpa using hflush

/-- Witness for C1 at a concrete paragraph: two citation anchors separated
by a separator superscript, followed by text, group into one
`(Ref: 1, 2)` annotation. -/
theorem citation_grouping_witness :
    etwrNode (Node.elem "p" []
      [Node.elem "a" [("role", "doc-biblioref"), ("href", "#bib1")]
         [Node.elem "sup" [] [Node.text "1"]],
       Node.elem "sup" [] [Node.text ","],
       Node.elem "a" [("role", "doc-biblioref"), ("href", "#bib2")]
         [Node.elem "sup" [] [Node.text "2"]],
       Node.text " were found."]) = [" (Ref: 1, 2)", " were found."] := by
  have h := (citation_grouping "p" []
    [Node.elem "a" [("role", "doc-biblioref"), ("href", "#bib1")]
       [Node.elem "sup" [] [Node.text "1"]],
     Node.elem "sup" [] [Node.text ","],
     Node.elem "a" [("role", "doc-biblioref"), ("href", "#bib2")]
       [Node.elem "sup" [] [Node.text "2"]]] [] " were found."
    (by decide) (by decide) (by decide)).1
  exact h.trans (by decide)

theorem ensureParagraphBreak_fields (st : ExtState) :
    (ensureParagraphBreak st).jsonData = st.jsonData ∧
    (ensureParagraphBreak st).currentSection = st.currentSection ∧
    (ensureParagraphBreak st).sectionParts = st.sectionParts := by
  unfold ensureParagraphBreak
  repeat' split
  all_goals exact ⟨rfl, rfl, rfl⟩

/-- C2 counterexample.  The claim as stated fails on the code at two
concrete heading events of level 2: a heading whose text is on the
boilerplate skip list (`"Metrics"`) triggers no flush and no section-name
change at all, and a heading containing `"★"` is slugged with the star
removed, not merely lowercased with spaces replaced. -/
theorem section_accumulation_counterexample :
    (append_heading 2 "Metrics"
      ⟨[], "header", ["Intro line\n"], [], [], none, [], [], []⟩).currentSection = "header" ∧
    (append_heading 2 "Metrics"
      ⟨[], "header", ["Intro line\n"], [], [], none, [], [], []⟩).jsonData = [] ∧
    ("header" : String) ≠ "metrics" ∧
    (append_heading 2 "Overview★"
      ⟨[], "header", [], [], [], none, [], [], []⟩).currentSection = "overview" ∧
    ("overview" : String) ≠ "overview★" :=
  ⟨by decide, by decide, by decide, by decide, by decide⟩

/-- C2 (amended).  For every heading event of level ≤ 2 whose cleaned text
is not boilerplate-skipped, the buffer (if non-empty after trimming) is
flushed into the section map under the current section name, the section
name becomes the slug of the cleaned heading text (lowercased, spaces
replaced by underscores, `"★"` removed), and the buffer is reset;
non-skipped heading events of clamped level 3–6 never change the section
name and are appended into the buffer as a markdown-style sub-heading
line; `"Results And Discussion"` slugs to `"results_and_discussion"`, and
identical heading text always yields the identical slug; at end of
document whatever remains in the buffer is flushed under the current
section name. -/
theorem section_accumulation (st : ExtState) (level : Nat) (text : String)
    (hskip : should_skip_text (clean_text text) = false) :
    (max 1 (min level 6) ≤ 2 →
      (append_heading level text st).currentSection = slugOf (clean_text text) ∧
      (append_heading level text st).sectionParts = [] ∧
      (append_heading level text st).jsonData =
        (if st.sectionParts ≠ [] ∧ pyStrip (String.join st.sectionParts) ≠ "" then
          dictInsert st.jsonData st.currentSection (pyStrip (String.join st.sectionParts))
        else st.jsonData)) ∧
    (2 < max 1 (min level 6) →
      (append_heading level text st).currentSection = st.currentSection ∧
      (append_heading level text st).jsonData = st.jsonData ∧
      (append_heading level text st).sectionParts =
        st.sectionParts ++
          [hashesOf (max 1 (min level 6)) ++ " " ++ clean_text text ++ "\n\n"]) ∧
    slugOf "Results And Discussion" = "results_and_discussion" ∧
    (∀ t1 t2 : String, t1 = t2 → slugOf t1 = slugOf t2) ∧
    (∀ (jd : List (String × String)) (cs : String) (sp : List String),
      sp ≠ [] → pyStrip (String.join sp) ≠ "" →
      finalSectionFlush jd cs sp = dictInsert jd cs (pyStrip (String.join sp))) := by
  have hepb := ensureParagraphBreak_fields st
  refine ⟨?_, ?_, by decide, ?_, ?_⟩
  · intro hlv
    unfold append_heading
    simp only [hskip, Bool.false_eq_true, if_false]
    rw [if_pos hlv]
    refine ⟨rfl, rfl, ?_⟩
    by_cases hsp : st.sectionParts = []
    · simp [hsp, hepb.2.2, hepb.2.1, hepb.1]
    · by_cases hc : pyStrip (String.join st.sectionParts) = ""
      · simp [hsp, hc, hepb.2.2, hepb.2.1, hepb.1]
      · simp [hsp, hc, hepb.2.2, hepb.2.1, hepb.1]
  · intro hlv
    unfold append_heading
    simp only [hskip, Bool.false_eq_true, if_false]
    rw [if_neg (by omega)]
    exact ⟨hepb.2.1, hepb.1, by rw [hepb.2.2]⟩
  · intro t1 t2 h
    rw [h]
  · intro jd cs sp hsp hc
    unfold finalSectionFlush
    simp [hsp, hc]

/-- Witness for C2 at a concrete heading event: a level-2 heading
`"Results And Discussion"` renames the current section to
`"results_and_discussion"`. -/
theorem section_accumulation_witness :
    (append_heading 2 "Results And Discussion"
      ⟨[], "header", ["Intro line\n"], [], [], none, [], [], []⟩).currentSection =
      "results_and_discussion" := by
  have h := ((section_accumulation
    ⟨[], "header", ["Intro line\n"], [], [], none, [], [], []⟩
    2 "Results And Discussion" (by decide)).1 (by decide)).1
  exact h.trans (by decide)

/-- C3.  Error boundary: every internal error raised inside the engine body
is caught at the entry point and converted to `none` (no exception
propagates to the caller); a successful body whose section map and
flattened text are both empty also yields `none`; and in particular the
fully empty document — no wrapper, no legacy ids — yields `none`, not an
empty map. -/
theorem error_boundary :
    (∀ e : String, engineBoundary (Except.error e) = none) ∧
    (∀ (jd : List (String × String)) (ft : String),
      jd = [] → pyStrip ft = "" → engineBoundary (Except.ok (jd, ft)) = none) ∧
    extractDocument (Node.elem "[document]" [] []) = none := by
  refine ⟨fun e => rfl, ?_, by decide⟩
  intro jd ft hjd hft
  subst hjd
  simp [engineBoundary, hft]

/-- Witness for C3 at concrete inputs: a raised parse failure is converted
to `none`, and an empty map with whitespace-only text is gated to `none`. -/
theorem error_boundary_witness :
    engineBoundary (Except.error "parse failure") = none ∧
    engineBoundary (Except.ok ([], " \n ")) = none :=
  ⟨error_boundary.1 "parse failure",
   error_boundary.2.1 [] " \n " rfl (by decide)⟩

theorem filterMap_rows_eq_map (rows : List (List String))
    (h : ∀ row ∈ rows, pyStrip (String.intercalate " | " row) ≠ "") :
    rows.filterMap (fun row =>
        if pyStrip (String.intercalate " | " row) ≠ "" then
          some (String.intercalate " | " row ++ "\n")
        else none) =
      rows.map (fun row => String.intercalate " | " row ++ "\n") := by
  induction rows with
  | nil => rfl
  | cons r rs ih =>
    have hr : pyStrip (String.intercalate " | " r) ≠ "" :=
      h r (List.mem_cons_self r rs)
    simp only [List.filterMap_cons, List.map_cons]
    rw [if_pos hr]
    simp only [ih (fun x hx => h x (List.mem_cons_of_mem _ hx))]

/-- C4 counterexample.  The claim as stated fails on the code: a surviving
row joins ALL its cell texts with `" | "`, empty cells included, so the row
`[a, (empty), b]` renders as `"a |  | b"`, not as the claimed join of only
the non-empty cells `"a | b"`. -/
theorem table_rendering_counterexample :
    renderTable (Node.elem "table" [] [Node.elem "tr" [] [
        Node.elem "td" [] [Node.text "a"], Node.elem "td" [] [],
        Node.elem "td" [] [Node.text "b"]]]) =
      ["\n", "[Table]\n", "a |  | b\n", "\n"] ∧
    String.intercalate " | "
        ((["a", "", "b"] : List String).filter (fun cell => cell ≠ "")) = "a | b" ∧
    ("a |  | b" : String) ≠ "a | b" :=
  ⟨by decide, by decide, by decide⟩

/-- C4 (amended).  For every table: a row all of whose cell texts are empty
is dropped (every surviving row has a non-empty cell); each surviving row
is rendered as ALL its cell texts — empty cells included — joined with
`" | "` on one line (here stated under the hypothesis that every surviving
row's joined line is non-blank, which makes the inner blank-line filter
the identity); the rendered table is preceded by a `[Table]` marker line
and bounded by blank-line separators; and a `<figure>` element (not itself
suppressed as a footnote element, hidden, or the references container)
contributes exactly its first nested table's rendering and no other body
text. -/
theorem table_rendering (tableTag : Node) (a : List (String × String))
    (c : List Node) (i : Nat) (st : ExtState)
    (hrows : tableRowsOf tableTag ≠ [])
    (hlines : ∀ row ∈ tableRowsOf tableTag,
      pyStrip (String.intercalate " | " row) ≠ "")
    (hfn : nodeMem st.footnoteElems (Node.elem "figure" a c) = false)
    (hhid : (attrD (Node.elem "figure" a c) "aria-hidden" == "true") = false)
    (hid : (pyLower (attrD (Node.elem "figure" a c) "id") == "references") = false) :
    (∀ row ∈ tableRowsOf tableTag, ∃ cell ∈ row, cell ≠ "") ∧
    renderTable tableTag =
      ["\n", "[Table]\n"] ++
        (tableRowsOf tableTag).map (fun row => String.intercalate " | " row ++ "\n") ++
      ["\n"] ∧
    appendContent (Node.elem "figure" a c) i st =
      (match findFirstBy (fun m => tagOf m == "table") (Node.elem "figure" a c) with
       | some tb => { st with textParts := st.textParts ++ renderTable tb,
                              sectionParts := st.sectionParts ++ renderTable tb }
       | none => st) := by
  have hne : (tableRowsOf tableTag).isEmpty = false := by
    cases hcase : tableRowsOf tableTag with
    | nil => exact absurd hcase hrows
    | cons r rs => rfl
  refine ⟨?_, ?_, ?_⟩
  · intro row hrow
    have hmem := hrow
    simp only [tableRowsOf] at hmem
    have := (List.mem_filter.mp hmem).2
    simpa using this
  · simp only [renderTable, hne, Bool.false_eq_true, if_false]
    rw [filterMap_rows_eq_map _ hlines]
  · have h1 : pyLower "figure" = "figure" := by decide
    have h2 : skipNames.contains "figure" = false := by decide
    rw [appendContent]
    simp only [h1, h2, hfn, hhid, hid, Bool.false_eq_true, if_false,
      beq_self_eq_true, Bool.true_or, if_true]
    cases hf : findFirstBy (fun m => tagOf m == "table") (Node.elem "figure" a c) with
    | none => simp [hf]
    | some tb => simp [hf, appendTableSt]

/-- Witness for C4 at a concrete figure-wrapped table: the all-empty first
row is dropped and the surviving row renders as `"x | y"`. -/
theorem table_rendering_witness :
    renderTable (Node.elem "table" [] [
        Node.elem "tr" [] [Node.elem "td" [] [], Node.elem "td" [] []],
        Node.elem "tr" [] [Node.elem "td" [] [Node.text "x"],
          Node.elem "td" [] [Node.text "y"]]]) =
      ["\n", "[Table]\n", "x | y\n", "\n"] := by
  have h := (table_rendering (Node.elem "table" [] [
      Node.elem "tr" [] [Node.elem "td" [] [], Node.elem "td" [] []],
      Node.elem "tr" [] [Node.elem "td" [] [Node.text "x"],
        Node.elem "td" [] [Node.text "y"]]]) [] [] 0
    ⟨[], "header", [], [], [], none, [], [], []⟩
    (by decide) (by decide) (by decide) (by decide) (by decide)).2.1
  exact h.trans (by decide)

theorem fnInsert1_eq_pos {st : FnState} {p : String × String × Bool}
    (hc : st.seen.contains p.1 = true) : fnInsert1 st p = st := by
  unfold fnInsert1
  rw [if_pos hc]

theorem fnInsert1_eq_neg {st : FnState} {p : String × String × Bool}
    (hc : ¬ st.seen.contains p.1 = true) :
    fnInsert1 st p = { st with map := st.map ++ [(p.1, p.2.1)],
                               inRefs := st.inRefs ++ [(p.1, p.2.2)],
                               seen := st.seen ++ [p.1] } := by
  unfold fnInsert1
  rw [if_neg hc]

theorem fnInsertIds_eq_fold (text : String) (inR : Bool) (ids : List String)
    (st : FnState) :
    fnInsertIds text inR ids st =
      (ids.map (fun i => (i, text, inR))).foldl fnInsert1 st := by
  induction ids generalizing st with
  | nil => rfl
  | cons i is ih =>
    simp only [fnInsertIds, List.map_cons, List.foldl_cons]
    by_cases hc : st.seen.contains i = true
    · rw [if_pos hc, fnInsert1_eq_pos hc]
      exact ih st
    · rw [if_neg hc, fnInsert1_eq_neg hc]
      exact ih _

theorem processCandidate_core (refsSec : Option Node) (st : FnState)
    (cd : Node × List Node) :
    (processCandidate refsSec st cd).map =
      ((candStream refsSec cd).foldl fnInsert1 st).map ∧
    (processCandidate refsSec st cd).inRefs =
      ((candStream refsSec cd).foldl fnInsert1 st).inRefs ∧
    (processCandidate refsSec st cd).seen =
      ((candStream refsSec cd).foldl fnInsert1 st).seen := by
  unfold processCandidate candStream
  cases h : candRecord refsSec cd.1 cd.2 with
  | none => simp
  | some r =>
    simp only [← fnInsertIds_eq_fold]
    split <;> simp

theorem foldl_match_append (refsSec : Option Node) (l : List (Node × List Node))
    (acc : List (String × String × Bool)) :
    l.foldl (fun a cd => match candRecord refsSec cd.1 cd.2 with
      | none => a
      | some r => a ++ r.1.map (fun i => (i, r.2.1, r.2.2.1))) acc =
    l.foldl (fun a cd => a ++ candStream refsSec cd) acc := by
  induction l generalizing acc with
  | nil => rfl
  | cons cd cds ih =>
    simp only [List.foldl_cons]
    rw [show (match candRecord refsSec cd.1 cd.2 with
        | none => acc
        | some r => acc ++ r.1.map (fun i => (i, r.2.1, r.2.2.1))) =
        acc ++ candStream refsSec cd from by
      unfold candStream; cases candRecord refsSec cd.1 cd.2 <;> simp]
    exact ih _

theorem streamfold_eq (refsSec : Option Node) (l : List (Node × List Node))
    (acc : List (String × String × Bool)) (st : FnState) :
    (l.foldl (fun a cd => a ++ candStream refsSec cd) acc).foldl fnInsert1 st =
      l.foldl (fun s cd => (candStream refsSec cd).foldl fnInsert1 s)
        (acc.foldl fnInsert1 st) := by
  induction l generalizing acc st with
  | nil => rfl
  | cons cd cds ih =>
    simp only [List.foldl_cons]
    rw [ih (acc ++ candStream refsSec cd) st, List.foldl_append]

theorem fnFold_core_congr (s : List (String × String × Bool)) (st1 st2 : FnState)
    (h1 : st1.map = st2.map) (h2 : st1.inRefs = st2.inRefs)
    (h3 : st1.seen = st2.seen) :
    (s.foldl fnInsert1 st1).map = (s.foldl fnInsert1 st2).map ∧
    (s.foldl fnInsert1 st1).inRefs = (s.foldl fnInsert1 st2).inRefs ∧
    (s.foldl fnInsert1 st1).seen = (s.foldl fnInsert1 st2).seen := by
  induction s generalizing st1 st2 with
  | nil => exact ⟨h1, h2, h3⟩
  | cons p ps ih =>
    simp only [List.foldl_cons]
    by_cases hc : st1.seen.contains p.1 = true
    · rw [fnInsert1_eq_pos hc, fnInsert1_eq_pos (by rw [← h3]; exact hc)]
      exact ih st1 st2 h1 h2 h3
    · rw [fnInsert1_eq_neg hc, fnInsert1_eq_neg (by rw [← h3]; exact hc)]
      exact ih _ _ (by simp [h1]) (by simp [h2]) (by simp [h3])

theorem procfold_core (refsSec : Option Node) (l : List (Node × List Node))
    (st1 st2 : FnState) (h1 : st1.map = st2.map) (h2 : st1.inRefs = st2.inRefs)
    (h3 : st1.seen = st2.seen) :
    (l.foldl (processCandidate refsSec) st1).map =
      (l.foldl (fun s cd => (candStream refsSec cd).foldl fnInsert1 s) st2).map ∧
    (l.foldl (processCandidate refsSec) st1).inRefs =
      (l.foldl (fun s cd => (candStream refsSec cd).foldl fnInsert1 s) st2).inRefs ∧
    (l.foldl (processCandidate refsSec) st1).seen =
      (l.foldl (fun s cd => (candStream refsSec cd).foldl fnInsert1 s) st2).seen := by
  induction l generalizing st1 st2 with
  | nil => exact ⟨h1, h2, h3⟩
  | cons cd cds ih =>
    simp only [List.foldl_cons]
    obtain ⟨g1, g2, g3⟩ := processCandidate_core refsSec st1 cd
    obtain ⟨k1, k2, k3⟩ := fnFold_core_congr (candStream refsSec cd) st1 st2 h1 h2 h3
    exact ih _ _ (g1.trans k1) (g2.trans k2) (g3.trans k3)

theorem buildFootnoteMap_core (doc : Node) (refsSec : Option Node) :
    (buildFootnoteMap doc refsSec).map =
      ((fnInsertStream doc refsSec).foldl fnInsert1 ⟨[], [], [], []⟩).map ∧
    (buildFootnoteMap doc refsSec).inRefs =
      ((fnInsertStream doc refsSec).foldl fnInsert1 ⟨[], [], [], []⟩).inRefs ∧
    (buildFootnoteMap doc refsSec).seen =
      ((fnInsertStream doc refsSec).foldl fnInsert1 ⟨[], [], [], []⟩).seen := by
  unfold buildFootnoteMap fnInsertStream
  rw [foldl_match_append, streamfold_eq]
  exact procfold_core refsSec (fnCandidates doc) _ _ rfl rfl rfl

theorem fnFold_keys (s : List (String × String × Bool)) (st : FnState)
    (h1 : st.seen = st.map.map Prod.fst) (h2 : st.seen = st.inRefs.map Prod.fst) :
    (s.foldl fnInsert1 st).seen = (s.foldl fnInsert1 st).map.map Prod.fst ∧
    (s.foldl fnInsert1 st).seen = (s.foldl fnInsert1 st).inRefs.map Prod.fst := by
  induction s generalizing st with
  | nil => exact ⟨h1, h2⟩
  | cons p ps ih =>
    simp only [List.foldl_cons]
    by_cases hc : st.seen.contains p.1 = true
    · rw [fnInsert1_eq_pos hc]
      exact ih st h1 h2
    · rw [fnInsert1_eq_neg hc]
      exact ih _ (by simp [h1]) (by simp [h2])

theorem fnFold_nodup (s : List (String × String × Bool)) (st : FnState)
    (h : st.seen.Nodup) : (s.foldl fnInsert1 st).seen.Nodup := by
  induction s generalizing st with
  | nil => exact h
  | cons p ps ih =>
    simp only [List.foldl_cons]
    by_cases hc : st.seen.contains p.1 = true
    · rw [fnInsert1_eq_pos hc]
      exact ih st h
    · rw [fnInsert1_eq_neg hc]
      refine ih _ ?_
      have hnm : p.1 ∉ st.seen := by simpa using hc
      simp [List.nodup_append, h, hnm]

theorem fnFold_key_src (s : List (String × String × Bool)) (st : FnState) :
    ∀ p ∈ (s.foldl fnInsert1 st).map, p ∈ st.map ∨ ∃ q ∈ s, p.1 = q.1 := by
  induction s generalizing st with
  | nil => exact fun p hp => Or.inl hp
  | cons x xs ih =>
    intro p hp
    simp only [List.foldl_cons] at hp
    rcases ih (fnInsert1 st x) p hp with hin | ⟨q, hq, hk⟩
    · by_cases hc : st.seen.contains x.1 = true
      · rw [fnInsert1_eq_pos hc] at hin
        exact Or.inl hin
      · rw [fnInsert1_eq_neg hc] at hin
        rcases List.mem_append.mp hin with h1 | h2
        · exact Or.inl h1
        · right
          refine ⟨x, List.mem_cons_self x xs, ?_⟩
          have := List.mem_singleton.mp h2
          rw [this]
    · exact Or.inr ⟨q, List.mem_cons_of_mem _ hq, hk⟩

theorem fnFold_lookup (s : List (String × String × Bool)) (st : FnState)
    (hk : st.seen = st.map.map Prod.fst) (k : String) :
    lookupStr (s.foldl fnInsert1 st).map k =
      (match lookupStr st.map k with
       | some v => some v
       | none => (s.find? (fun q => q.1 = k)).map (fun q => q.2.1)) := by
  induction s generalizing st with
  | nil =>
    cases h : lookupStr st.map k <;> simp [h]
  | cons p ps ih =>
    simp only [List.foldl_cons]
    by_cases hc : st.seen.contains p.1 = true
    · rw [fnInsert1_eq_pos hc, ih st hk]
      by_cases hpk : p.1 = k
      · subst hpk
        have hmem : p.1 ∈ st.map.map Prod.fst := by
          rw [← hk]; simpa using hc
        obtain ⟨q, hq, hqk⟩ := List.mem_map.mp hmem
        have hsome : (lookupStr st.map p.1).isSome := by
          unfold lookupStr
          rw [Option.isSome_map']
          rw [List.find?_isSome]
          exact ⟨q, hq, by simp [hqk]⟩
        obtain ⟨v, hv⟩ := Option.isSome_iff_exists.mp hsome
        rw [hv]
      · rw [List.find?_cons_of_neg _ (by simp [hpk])]
    · rw [fnInsert1_eq_neg hc]
      have hk2 : (st.seen ++ [p.1]) =
          (st.map ++ [(p.1, p.2.1)]).map Prod.fst := by simp [hk]
      rw [ih { st with map := st.map ++ [(p.1, p.2.1)],
                       inRefs := st.inRefs ++ [(p.1, p.2.2)],
                       seen := st.seen ++ [p.1] } hk2]
      have happ : lookupStr (st.map ++ [(p.1, p.2.1)]) k =
          (match lookupStr st.map k with
           | some v => some v
           | none => if p.1 = k then some p.2.1 else none) := by
        unfold lookupStr
        rw [List.find?_append]
        cases h : st.map.find? (fun q => q.1 = k) <;> by_cases hpk : p.1 = k <;>
          simp [h, hpk]
      rw [happ]
      by_cases hpk : p.1 = k
      · rw [List.find?_cons_of_pos _ (by simp [hpk])]
        cases h2 : lookupStr st.map k <;> simp [hpk]
      · rw [List.find?_cons_of_neg _ (by simp [hpk])]
        cases h2 : lookupStr st.map k <;> simp [hpk]

theorem fnFold_lookupB (s : List (String × String × Bool)) (st : FnState)
    (hk : st.seen = st.inRefs.map Prod.fst) (k : String) :
    lookupBool (s.foldl fnInsert1 st).inRefs k =
      (match lookupBool st.inRefs k with
       | some v => some v
       | none => (s.find? (fun q => q.1 = k)).map (fun q => q.2.2)) := by
  induction s generalizing st with
  | nil =>
    cases h : lookupBool st.inRefs k <;> simp [h]
  | cons p ps ih =>
    simp only [List.foldl_cons]
    by_cases hc : st.seen.contains p.1 = true
    · rw [fnInsert1_eq_pos hc, ih st hk]
      by_cases hpk : p.1 = k
      · subst hpk
        have hmem : p.1 ∈ st.inRefs.map Prod.fst := by
          rw [← hk]; simpa using hc
        obtain ⟨q, hq, hqk⟩ := List.mem_map.mp hmem
        have hsome : (lookupBool st.inRefs p.1).isSome := by
          unfold lookupBool
          rw [Option.isSome_map']
          rw [List.find?_isSome]
          exact ⟨q, hq, by simp [hqk]⟩
        obtain ⟨v, hv⟩ := Option.isSome_iff_exists.mp hsome
        rw [hv]
      · rw [List.find?_cons_of_neg _ (by simp [hpk])]
    · rw [fnInsert1_eq_neg hc]
      have hk2 : (st.seen ++ [p.1]) =
          (st.inRefs ++ [(p.1, p.2.2)]).map Prod.fst := by simp [hk]
      rw [ih { st with map := st.map ++ [(p.1, p.2.1)],
                       inRefs := st.inRefs ++ [(p.1, p.2.2)],
                       seen := st.seen ++ [p.1] } hk2]
      have happ : lookupBool (st.inRefs ++ [(p.1, p.2.2)]) k =
          (match lookupBool st.inRefs k with
           | some v => some v
           | none => if p.1 = k then some p.2.2 else none) := by
        unfold lookupBool
        rw [List.find?_append]
        cases h : st.inRefs.find? (fun q => q.1 = k) <;> by_cases hpk : p.1 = k <;>
          simp [h, hpk]
      rw [happ]
      by_cases hpk : p.1 = k
      · rw [List.find?_cons_of_pos _ (by simp [hpk])]
        cases h2 : lookupBool st.inRefs k <;> simp [hpk]
      · rw [List.find?_cons_of_neg _ (by simp [hpk])]
        cases h2 : lookupBool st.inRefs k <;> simp [hpk]

theorem normalize_identifier_noWs (v : String) :
    (normalize_identifier v).data.all (fun c => !isWsChar c) = true := by
  unfold normalize_identifier
  by_cases hv : v = ""
  · simp [hv]
  · simp only [hv, if_false]
    rw [List.all_eq_true]
    intro c hc
    exact (List.mem_filter.mp hc).2

theorem candRecord_key (refsSec : Option Node) (cand : Node) (anc : List Node)
    (r : List String × String × Bool × Node)
    (h : candRecord refsSec cand anc = some r) :
    ∀ i ∈ r.1, ∃ raw, i = normalize_identifier raw := by
  unfold candRecord at h
  simp only [] at h
  intro i hi
  repeat' split at h
  all_goals try exact Option.noConfusion h
  all_goals
    have hr := Option.some.inj h
    subst hr
    have hmem := (List.mem_filter.mp hi).1
    obtain ⟨raw, _, hraw⟩ := List.mem_map.mp hmem
    exact ⟨raw, hraw.symm⟩

theorem fnInsertStream_keys (doc : Node) (refsSec : Option Node) :
    ∀ q ∈ fnInsertStream doc refsSec, ∃ raw, q.1 = normalize_identifier raw := by
  have haux : ∀ (l : List (Node × List Node)) (acc : List (String × String × Bool)),
      (∀ q ∈ acc, ∃ raw, q.1 = normalize_identifier raw) →
      ∀ q ∈ l.foldl (fun a cd => a ++ candStream refsSec cd) acc,
        ∃ raw, q.1 = normalize_identifier raw := by
    intro l
    induction l with
    | nil => exact fun acc hacc q hq => hacc q hq
    | cons cd cds ih =>
      intro acc hacc q hq
      simp only [List.foldl_cons] at hq
      refine ih _ ?_ q hq
      intro q2 hq2
      rcases List.mem_append.mp hq2 with h | h
      · exact hacc q2 h
      · unfold candStream at h
        cases hcr : candRecord refsSec cd.1 cd.2 with
        | none => rw [hcr] at h; simp at h
        | some r =>
          rw [hcr] at h
          obtain ⟨i, hi, hqi⟩ := List.mem_map.mp h
          obtain ⟨raw, hraw⟩ := candRecord_key refsSec cd.1 cd.2 r hcr i hi
          exact ⟨raw, by rw [← hqi, hraw]⟩
  intro q hq
  unfold fnInsertStream at hq
  rw [foldl_match_append] at hq
  exact haux _ _ (by simp) q hq

/-- C5.  Footnote index invariant: every id stored in the footnote index is
the normalization of some raw identifier (lowercased, one leading `#`
stripped, whitespace removed — concretely `" #BiB 12 "` normalizes to
`"bib12"`) and in particular contains no whitespace; normalized ids are
unique in the index (in both the text map and the `in_refs` map); and the
lookup of any id equals the first occurrence of that id in the flattened
discovery stream of the selector pre-pass — the first successful match's
text and `in_refs` flag win, every later match with the same normalized id
is ignored. -/
theorem footnote_index_invariant (doc : Node) (refsSec : Option Node) :
    ((buildFootnoteMap doc refsSec).map.map Prod.fst).Nodup ∧
    ((buildFootnoteMap doc refsSec).inRefs.map Prod.fst).Nodup ∧
    (∀ p ∈ (buildFootnoteMap doc refsSec).map,
      ∃ raw, p.1 = normalize_identifier raw ∧
        p.1.data.all (fun c => !isWsChar c) = true) ∧
    (∀ k, lookupStr (buildFootnoteMap doc refsSec).map k =
      ((fnInsertStream doc refsSec).find? (fun q => q.1 = k)).map (fun q => q.2.1)) ∧
    (∀ k, lookupBool (buildFootnoteMap doc refsSec).inRefs k =
      ((fnInsertStream doc refsSec).find? (fun q => q.1 = k)).map (fun q => q.2.2)) ∧
    normalize_identifier " #BiB 12 " = "bib12" := by
  obtain ⟨hm, hi, hs⟩ := buildFootnoteMap_core doc refsSec
  have hkeys := fnFold_keys (fnInsertStream doc refsSec) ⟨[], [], [], []⟩ rfl rfl
  have hnd := fnFold_nodup (fnInsertStream doc refsSec) ⟨[], [], [], []⟩ List.nodup_nil
  refine ⟨?_, ?_, ?_, ?_, ?_, by decide⟩
  · rw [hm, ← hkeys.1]
    exact hnd
  · rw [hi, ← hkeys.2]
    exact hnd
  · intro p hp
    rw [hm] at hp
    rcases fnFold_key_src _ _ p hp with h0 | ⟨q, hq, hk⟩
    · simp at h0
    · obtain ⟨raw, hraw⟩ := fnInsertStream_keys doc refsSec q hq
      exact ⟨raw, hk.trans hraw, by rw [hk, hraw]; exact normalize_identifier_noWs raw⟩
  · intro k
    rw [hm, fnFold_lookup _ _ rfl k]
    simp [lookupStr]
  · intro k
    rw [hi, fnFold_lookupB _ _ rfl k]
    simp [lookupBool]

/-- Witness for C5 at a concrete document: the id discovered as `bib1`
resolves to the first (and only) matching entry's text. -/
theorem footnote_index_invariant_witness :
    lookupStr (buildFootnoteMap
      (prunedOf (Node.elem "[document]" [] [Node.elem "body" [] [
        Node.elem "section" [("id", "references")] [
          Node.elem "ul" [] [
            Node.elem "li" [] [Node.elem "a" [("id", "bib1")] [],
              Node.text "Smith 2020. Title."]]]]]))
      (refsSecOf (prunedOf (Node.elem "[document]" [] [Node.elem "body" [] [
        Node.elem "section" [("id", "references")] [
          Node.elem "ul" [] [
            Node.elem "li" [] [Node.elem "a" [("id", "bib1")] [],
              Node.text "Smith 2020. Title."]]]]])))).map "bib1" =
      some "Smith 2020. Title." := by
  have h := (footnote_index_invariant
    (prunedOf (Node.elem "[document]" [] [Node.elem "body" [] [
      Node.elem "section" [("id", "references")] [
        Node.elem "ul" [] [
          Node.elem "li" [] [Node.elem "a" [("id", "bib1")] [],
            Node.text "Smith 2020. Title."]]]]]))
    (refsSecOf (prunedOf (Node.elem "[document]" [] [Node.elem "body" [] [
      Node.elem "section" [("id", "references")] [
        Node.elem "ul" [] [
          Node.elem "li" [] [Node.elem "a" [("id", "bib1")] [],
            Node.text "Smith 2020. Title."]]]]])))).2.2.2.1 "bib1"
  exact h.trans (by decide)

theorem supResolvedIds_eq (container : Node) :
    supResolvedIds container =
      (findAllBy (fun m => tagOf m == "sup") container).foldl
        (fun acc sup => acc ++ (supCids sup).map normalize_identifier) [] := rfl

theorem foldl_append_stream {α β γ : Type} (f : α → List β) (g : γ → β → γ)
    (l : List α) (acc : List β) (a : γ) :
    (l.foldl (fun s x => s ++ f x) acc).foldl g a =
      l.foldl (fun s x => (f x).foldl g s) (acc.foldl g a) := by
  induction l generalizing acc with
  | nil => rfl
  | cons x xs ih =>
    simp only [List.foldl_cons]
    rw [ih (acc ++ f x), List.foldl_append]

theorem collect_fold_eq (fm : List (String × String)) (fr : List (String × Bool))
    (sups : List Node) (acc : List String × List String) :
    sups.foldl (fun acc sup => (supCids sup).foldl
        (fun a2 cid => inlineStep fm fr a2 (normalize_identifier cid)) acc) acc =
      sups.foldl (fun acc sup => ((supCids sup).map normalize_identifier).foldl
        (inlineStep fm fr) acc) acc := by
  simp only [List.foldl_map]

theorem inlineFold_spec (fm : List (String × String)) (fr : List (String × Bool))
    (hfm : ∀ p ∈ fm, p.2 ≠ "") :
    ∀ (s : List String) (parts seen : List String),
      (s.foldl (inlineStep fm fr) (parts, seen)).1 =
        parts ++ inlineNotesSpec fm fr s seen := by
  intro s
  induction s with
  | nil => intro parts seen; simp [inlineNotesSpec]
  | cons i is ih =>
    intro parts seen
    simp only [List.foldl_cons]
    by_cases h1 : (i = "" || seen.contains i) = true
    · rw [show inlineStep fm fr (parts, seen) i = (parts, seen) from by
        simp only [inlineStep]; rw [if_pos h1]]
      rw [ih parts seen]
      rw [show inlineNotesSpec fm fr (i :: is) seen = inlineNotesSpec fm fr is seen from by
        rw [inlineNotesSpec]; rw [if_pos h1]]
    · by_cases h2 : (lookupBool fr i).getD false = true
      · rw [show inlineStep fm fr (parts, seen) i = (parts, seen) from by
          simp only [inlineStep]; rw [if_neg h1, if_pos h2]]
        rw [ih parts seen]
        rw [show inlineNotesSpec fm fr (i :: is) seen = inlineNotesSpec fm fr is seen from by
          rw [inlineNotesSpec]; rw [if_neg h1, if_pos h2]]
      · cases hlk : lookupStr fm i with
        | none =>
          rw [show inlineStep fm fr (parts, seen) i = (parts, seen) from by
            simp only [inlineStep]; rw [if_neg h1, if_neg h2, hlk]]
          rw [ih parts seen]
          rw [show inlineNotesSpec fm fr (i :: is) seen = inlineNotesSpec fm fr is seen from by
            rw [inlineNotesSpec]; rw [if_neg h1, if_neg h2, hlk]]
        | some txt =>
          have htxt : txt ≠ "" := by
            unfold lookupStr at hlk
            obtain ⟨q, hq1, hq2⟩ := Option.map_eq_some'.mp hlk
            have hmem := List.mem_of_find?_eq_some hq1
            rw [← hq2]
            exact hfm q hmem
          rw [show inlineStep fm fr (parts, seen) i =
              (parts ++ [txt], seen ++ [i]) from by
            simp only [inlineStep]; rw [if_neg h1, if_neg h2, hlk]; simp [htxt]]
          rw [ih (parts ++ [txt]) (seen ++ [i])]
          rw [show inlineNotesSpec fm fr (i :: is) seen =
              txt :: inlineNotesSpec fm fr is (seen ++ [i]) from by
            rw [inlineNotesSpec]; rw [if_neg h1, if_neg h2, hlk]]
          simp

/-- C6.  Inline footnote enrichment: the notes collected for a container
are exactly the spec-level enrichment — each superscript's resolved
normalized id that exists in the footnote index with `in_references =
false` contributes its resolved text, in encounter order, deduplicated by
id, ids flagged `in_references = true` or absent contributing nothing
(stated for an index whose texts are non-empty, as `build_footnote_map`
guarantees); and a body paragraph whose collected notes are non-empty has
its flattened text emitted with the single trailing
`" (Footnote: text1; text2; ...)"` annotation. -/
theorem inline_footnote_enrichment (fm : List (String × String))
    (fr : List (String × Bool)) (cNode : Node) (a : List (String × String))
    (c : List Node) (i : Nat) (st : ExtState)
    (hfm : ∀ p ∈ fm, p.2 ≠ "")
    (hfn : nodeMem st.footnoteElems (Node.elem "p" a c) = false)
    (hhid : (attrD (Node.elem "p" a c) "aria-hidden" == "true") = false)
    (hid : (pyLower (attrD (Node.elem "p" a c) "id") == "references") = false)
    (hdc : (pyLower (attrD (Node.elem "p" a c) "data-component") == "figure") = false)
    (hcls : classesOf (Node.elem "p" a c) = [])
    (hrole : (pyLower (attrD (Node.elem "p" a c) "role") == "doc-footnote") = false)
    (htb : findFirstBy (fun m => tagOf m == "table") (Node.elem "p" a c) = none)
    (hnotes : collect_inline_footnotes st.footnoteMap st.footnoteInRefs
      (Node.elem "p" a c) ≠ []) :
    collect_inline_footnotes fm fr cNode =
      (if fm.isEmpty then [] else inlineNotesSpec fm fr (supResolvedIds cNode) []) ∧
    appendContent (Node.elem "p" a c) i st =
      append_line (fixPunctLetter (fixSpacePunct (pyStrip (collapseSpaces
          (String.join (etwrNode (Node.elem "p" a c)))))) ++
        " (Footnote: " ++ String.intercalate "; "
          (collect_inline_footnotes st.footnoteMap st.footnoteInRefs
            (Node.elem "p" a c)) ++ ")") i true st := by
  constructor
  · by_cases he : fm.isEmpty = true
    · rw [if_pos he]
      unfold collect_inline_footnotes
      rw [if_pos he]
    · rw [if_neg he]
      have h0 : collect_inline_footnotes fm fr cNode =
          ((findAllBy (fun m => tagOf m == "sup") cNode).foldl
            (fun acc sup => (supCids sup).foldl
              (fun a2 cid => inlineStep fm fr a2 (normalize_identifier cid)) acc)
            ([], [])).1 := by
        unfold collect_inline_footnotes
        rw [if_neg he]
        rfl
      rw [h0, collect_fold_eq]
      have h1 := foldl_append_stream
        (fun sup => (supCids sup).map normalize_identifier) (inlineStep fm fr)
        (findAllBy (fun m => tagOf m == "sup") cNode) []
        (([], []) : List String × List String)
      rw [List.foldl_nil] at h1
      rw [← h1, ← supResolvedIds_eq,
        inlineFold_spec fm fr hfm (supResolvedIds cNode) [] []]
      simp
  · have h1 : pyLower "p" = "p" := by decide
    have h2 : skipNames.contains "p" = false := by decide
    have hne : (collect_inline_footnotes st.footnoteMap st.footnoteInRefs
        (Node.elem "p" a c)).isEmpty = false := by
      cases hcase : collect_inline_footnotes st.footnoteMap st.footnoteInRefs
        (Node.elem "p" a c) with
      | nil => exact absurd hcase hnotes
      | cons x xs => rfl
    have hp2 : fixPunctLetter (fixSpacePunct (pyStrip (collapseSpaces
          (String.join (etwrNode (Node.elem "p" a c)))))) ++
        " (Footnote: " ++ String.intercalate "; "
          (collect_inline_footnotes st.footnoteMap st.footnoteInRefs
            (Node.elem "p" a c)) ++ ")" ≠ "" := by
      intro h
      have hlen := congrArg String.length h
      simp [String.length_append] at hlen
      exact absurd hlen.1.1.2 (by decide)
    rw [appendContent]
    simp only [h1, h2, hfn, hhid, hid, hdc, hcls, hrole, htb, hne,
      Bool.false_eq_true, if_false, beq_self_eq_true, Bool.true_or, if_true,
      List.map_nil, List.any_nil, Bool.false_or, Bool.and_false, Option.isNone_none,
      Bool.and_true, Bool.not_false]
    rw [if_neg (by decide), if_neg (by decide), if_neg (by decide),
      if_neg (by decide), if_pos hp2]

/-- Witness for C6 at a concrete paragraph: the id `bib12`, cited via a
superscript anchor and indexed outside the references section, contributes
its resolved text. -/
theorem inline_footnote_enrichment_witness :
    collect_inline_footnotes [("bib12", "resolved text")] [("bib12", false)]
      (Node.elem "p" [] [Node.text "Claim text",
        Node.elem "sup" [] [Node.elem "a" [("href", "#bib12")] [Node.text "12"]]]) =
      ["resolved text"] := by
  have h := (inline_footnote_enrichment [("bib12", "resolved text")]
    [("bib12", false)]
    (Node.elem "p" [] [Node.text "Claim text",
      Node.elem "sup" [] [Node.elem "a" [("href", "#bib12")] [Node.text "12"]]])
    []
    [Node.text "Claim text",
      Node.elem "sup" [] [Node.elem "a" [("href", "#bib12")] [Node.text "12"]]]
    0
    ⟨[], "header", [], [], [], none, [("bib12", "resolved text")],
      [("bib12", false)], []⟩
    (by decide) (by decide) (by decide) (by decide) (by decide) (by decide)
    (by decide) (by rfl) (by decide)).1
  exact h.trans (by decide)

theorem dedupFold_cons (t : String) (ts entries seen : List String) :
    dedupFoldTexts (t :: ts) entries seen =
      if (t = "" || seen.contains (pyLower t)) = true then
        dedupFoldTexts ts entries seen
      else dedupFoldTexts ts (entries ++ [t]) (seen ++ [pyLower t]) := by
  have hstep : (fun (acc : List String × List String) text =>
      let lower := pyLower text
      if text = "" || acc.2.contains lower then acc
      else (acc.1 ++ [text], acc.2 ++ [lower])) (entries, seen) t =
      (if (t = "" || seen.contains (pyLower t)) = true then (entries, seen)
       else (entries ++ [t], seen ++ [pyLower t])) := rfl
  simp only [dedupFoldTexts, List.foldl_cons, hstep]
  split <;> rfl

theorem dedupFold_grow (texts : List String) :
    ∀ entries seen : List String, ∃ added : List String,
      (dedupFoldTexts texts entries seen).1 = entries ++ added ∧
      (dedupFoldTexts texts entries seen).2 = seen ++ added.map pyLower := by
  induction texts with
  | nil =>
    intro entries seen
    exact ⟨[], by simp [dedupFoldTexts], by simp [dedupFoldTexts]⟩
  | cons t ts ih =>
    intro entries seen
    rw [dedupFold_cons]
    by_cases h : (t = "" || seen.contains (pyLower t)) = true
    · rw [if_pos h]
      exact ih entries seen
    · rw [if_neg h]
      obtain ⟨added, h1, h2⟩ := ih (entries ++ [t]) (seen ++ [pyLower t])
      exact ⟨t :: added, by simp [h1], by simp [h2]⟩

theorem dedupFold_nil_seen (texts seen : List String)
    (h : (dedupFoldTexts texts [] seen).1 = []) :
    (dedupFoldTexts texts [] seen).2 = seen := by
  obtain ⟨added, h1, h2⟩ := dedupFold_grow texts [] seen
  rw [h1] at h
  simp only [List.nil_append] at h
  rw [h2, h]
  simp

/-- C7 counterexample.  The claim as stated fails on the code at two
points: phase (a) is not limited to direct list-item children — a
references container with no direct `li` children still yields its
descendant `div[role="listitem"]` entries, pre-empting the footnote-index
phase; and non-numeric ids do not sort after ALL numeric ones — the
sentinel key `10 ** 6` places a non-numeric id before a numeric id whose
leading number is at least `10 ** 6`. -/
theorem reference_preference_counterexample :
    (directChildrenNamed ["li"] (Node.elem "section" [("id", "references")]
      [Node.elem "div" [] [Node.elem "div" [("role", "listitem")]
        [Node.text "Nested Entry"]]])).isEmpty = true ∧
    get_reference_entries (some (Node.elem "section" [("id", "references")]
        [Node.elem "div" [] [Node.elem "div" [("role", "listitem")]
          [Node.text "Nested Entry"]]]))
      [("bib2000000", "Numeric Entry"), ("appendix", "Alpha Entry")]
      [("bib2000000", true), ("appendix", true)] = ["Nested Entry"] ∧
    refPhaseBC [("bib2000000", "Numeric Entry"), ("appendix", "Alpha Entry")]
      [("bib2000000", true), ("appendix", true)] [] [] =
      ["Alpha Entry", "Numeric Entry"] ∧
    (["Nested Entry"] : List String) ≠ ["Alpha Entry", "Numeric Entry"] ∧
    get_reference_entries none
      [("bib2000000", "Numeric Entry"), ("appendix", "Alpha Entry")]
      [("bib2000000", true), ("appendix", true)] =
      ["Alpha Entry", "Numeric Entry"] ∧
    reference_sort_key "appendix" = (1000000, "appendix") ∧
    reference_sort_key "bib2000000" = (2000000, "bib2000000") ∧
    (reference_sort_key "appendix").1 < (reference_sort_key "bib2000000").1 :=
  ⟨by decide, by decide, by decide, by decide, by decide, by decide, by decide,
   by decide⟩

/-- C7 (amended).  Reference list builder preference order: when a
references container is detected, its candidate entries come from a
cascade — direct `li` children, else descendant `div[role="listitem"]`
elements, else direct `div`/`p` children — cleaned and de-duplicated
case-insensitively; if that yields anything it is the result, otherwise
the footnote phases run with an empty seen set.  Phase (b) takes the
footnote-index ids flagged `in_references = true` sorted by
`reference_sort_key` (a total order: ids with a digit run sort by their
first digit run ascending, ids without digits get the sentinel key
`10 ** 6`, ties broken by the id string — the sorted list is a sorted
permutation of the input); only if phase (b) yields nothing does phase (c)
return the full footnote map's texts in encounter order, de-duplicated;
an empty footnote map yields no phase (b)/(c) entries. -/
theorem reference_preference (sec : Node) (fm : List (String × String))
    (fr : List (String × Bool)) :
    ((dedupFoldTexts ((refPhaseACandidates sec).map clean_reference_entry) [] []).1 ≠ [] →
      get_reference_entries (some sec) fm fr =
        (dedupFoldTexts ((refPhaseACandidates sec).map clean_reference_entry) [] []).1) ∧
    ((dedupFoldTexts ((refPhaseACandidates sec).map clean_reference_entry) [] []).1 = [] →
      get_reference_entries (some sec) fm fr = refPhaseBC fm fr [] []) ∧
    (∀ ids : List String, List.Sorted refIdLe (sortedByRefKey ids) ∧
      List.Perm (sortedByRefKey ids) ids) ∧
    (∀ idStr : String,
      (firstDigitRun idStr.data = none →
        reference_sort_key idStr = (1000000, idStr)) ∧
      (∀ n, firstDigitRun idStr.data = some n →
        reference_sort_key idStr = (n, idStr))) ∧
    (fm = [] → refPhaseBC fm fr [] [] = []) ∧
    (fm ≠ [] →
      ((dedupFoldTexts ((sortedByRefKey
            ((fr.filter (fun p => p.2)).map (fun p => p.1))).map
            (fun fid => (lookupStr fm fid).getD "")) [] []).1 ≠ [] →
        refPhaseBC fm fr [] [] =
          (dedupFoldTexts ((sortedByRefKey
            ((fr.filter (fun p => p.2)).map (fun p => p.1))).map
            (fun fid => (lookupStr fm fid).getD "")) [] []).1) ∧
      ((dedupFoldTexts ((sortedByRefKey
            ((fr.filter (fun p => p.2)).map (fun p => p.1))).map
            (fun fid => (lookupStr fm fid).getD "")) [] []).1 = [] →
        refPhaseBC fm fr [] [] =
          (dedupFoldTexts (fm.map (fun p => p.2)) [] []).1)) := by
  have hbc : ∀ (hfm : fm ≠ []),
      refPhaseBC fm fr [] [] =
        (if !(dedupFoldTexts ((sortedByRefKey
            ((fr.filter (fun p => p.2)).map (fun p => p.1))).map
            (fun fid => (lookupStr fm fid).getD "")) [] []).1.isEmpty then
          (dedupFoldTexts ((sortedByRefKey
            ((fr.filter (fun p => p.2)).map (fun p => p.1))).map
            (fun fid => (lookupStr fm fid).getD "")) [] []).1
        else (dedupFoldTexts (fm.map (fun p => p.2))
          (dedupFoldTexts ((sortedByRefKey
            ((fr.filter (fun p => p.2)).map (fun p => p.1))).map
            (fun fid => (lookupStr fm fid).getD "")) [] []).1
          (dedupFoldTexts ((sortedByRefKey
            ((fr.filter (fun p => p.2)).map (fun p => p.1))).map
            (fun fid => (lookupStr fm fid).getD "")) [] []).2).1) := by
    intro hfm
    have he : fm.isEmpty = false := by
      cases hc : fm with
      | nil => exact absurd hc hfm
      | cons x xs => rfl
    unfold refPhaseBC
    rw [he]
    rfl
  refine ⟨?_, ?_, ?_, ?_, ?_, ?_⟩
  · intro hne
    have hb : (dedupFoldTexts ((refPhaseACandidates sec).map clean_reference_entry)
        [] []).1.isEmpty = false := by
      cases hc : (dedupFoldTexts ((refPhaseACandidates sec).map clean_reference_entry)
        [] []).1 with
      | nil => exact absurd hc hne
      | cons x xs => rfl
    unfold get_reference_entries
    simp only []
    rw [hb]
    rfl
  · intro hz
    have hb : (dedupFoldTexts ((refPhaseACandidates sec).map clean_reference_entry)
        [] []).1.isEmpty = true := by rw [hz]; rfl
    unfold get_reference_entries
    simp only []
    rw [hb]
    simp only [Bool.not_true, Bool.false_eq_true, if_false]
    rw [hz, dedupFold_nil_seen _ _ hz]
  · exact fun ids => ⟨List.sorted_insertionSort refIdLe ids,
      List.perm_insertionSort refIdLe ids⟩
  · intro idStr
    constructor
    · intro h
      unfold reference_sort_key
      rw [h]
    · intro n h
      unfold reference_sort_key
      rw [h]
  · intro hfm
    subst hfm
    rfl
  · intro hfm
    constructor
    · intro hne
      have hb : (dedupFoldTexts ((sortedByRefKey
          ((fr.filter (fun p => p.2)).map (fun p => p.1))).map
          (fun fid => (lookupStr fm fid).getD "")) [] []).1.isEmpty = false := by
        cases hc : (dedupFoldTexts ((sortedByRefKey
            ((fr.filter (fun p => p.2)).map (fun p => p.1))).map
            (fun fid => (lookupStr fm fid).getD "")) [] []).1 with
        | nil => exact absurd hc hne
        | cons x xs => rfl
      rw [hbc hfm, hb]
      rfl
    · intro hz
      have hb : (dedupFoldTexts ((sortedByRefKey
          ((fr.filter (fun p => p.2)).map (fun p => p.1))).map
          (fun fid => (lookupStr fm fid).getD "")) [] []).1.isEmpty = true := by
        rw [hz]; rfl
      rw [hbc hfm, hb]
      simp only [Bool.not_true, Bool.false_eq_true, if_false]
      rw [hz, dedupFold_nil_seen _ _ hz]

/-- Witness for C7 at concrete inputs: a container with direct `li`
children wins over a non-empty footnote map, and with no container the
flagged footnote entries are returned in sorted order. -/
theorem reference_preference_witness :
    get_reference_entries (some (Node.elem "section" [("id", "references")]
        [Node.elem "li" [] [Node.text "Direct Entry"]]))
      [("bib2", "Map Entry")] [("bib2", true)] = ["Direct Entry"] := by
  have h := (reference_preference (Node.elem "section" [("id", "references")]
      [Node.elem "li" [] [Node.text "Direct Entry"]])
    [("bib2", "Map Entry")] [("bib2", true)]).1 (by decide)
  exact h.trans (by decide)

theorem append_line_plain (text : String) (st : ExtState) (allowRepeat : Bool)
    (h1 : clean_text text ≠ "")
    (h2 : (pyStrip (clean_text text) == "•") = false)
    (h3 : (pyStrip (clean_text text) == "·") = false)
    (h4 : (pyStrip (clean_text text) == "+") = false)
    (h5 : (pyStrip (clean_text text) == "-") = false)
    (h6 : (pyStrip (clean_text text) == "−") = false)
    (h7 : should_skip_text (clean_text text) = false)
    (hpb : st.pendingBullet = none) :
    append_line text 0 allowRepeat st =
      (if (!allowRepeat && st.recentLines.contains (clean_text (clean_text text))) = true then
        { st with pendingBullet := none }
      else { st with pendingBullet := none,
                     recentLines := dequeAppend 60 st.recentLines
                       (clean_text (clean_text text)),
                     sectionParts := st.sectionParts ++ [clean_text text ++ "\n"],
                     textParts := st.textParts ++ [clean_text text ++ "\n"] }) := by
  unfold append_line
  simp only [h1, h2, h3, h4, h5, h6, h7, hpb, Bool.or_self, Bool.or_false,
    Bool.false_or, Bool.false_and, Bool.and_false, Bool.false_eq_true, if_false,
    ne_eq, not_false_iff, if_true, decide_not, Option.isNone_none]
  simp

theorem dequeAppend_cap (d : List String) (x : String) (h : d.length ≤ 60) :
    (dequeAppend 60 d x).length ≤ 60 := by
  unfold dequeAppend
  simp only []
  split
  · simp only [List.length_drop, List.length_append, List.length_cons,
      List.length_nil]
    omega
  · rename_i hle
    simp only [List.length_append, List.length_cons, List.length_nil] at hle ⊢
    omega

theorem dequeAppend_mem (d : List String) (x : String) :
    (dequeAppend 60 d x).contains x = true := by
  unfold dequeAppend
  simp only []
  split
  · rename_i hlt
    have hle : (d ++ [x]).length - 60 ≤ d.length := by
      simp only [List.length_append, List.length_cons, List.length_nil] at hlt ⊢
      omega
    rw [List.drop_append_of_le_length hle]
    simp
  · simp

/-- C8.  Duplicate suppression: the recent-lines window never exceeds its
capacity of 60; a line whose cleaned fingerprint is already in the window
is dropped by the plain line-append path (the state is unchanged); a line
not in the window is emitted and a second identical emission is then
dropped; the repeat-allowed path emits regardless of the window; and
table rendering bypasses the window entirely (hypotheses restrict to the
plain-line path: non-empty cleaned text that is not a bullet or
continuation token and not boilerplate, with no pending bullet prefix). -/
theorem duplicate_suppression (text : String) (st : ExtState) (tb : Node)
    (h1 : clean_text text ≠ "")
    (h2 : (pyStrip (clean_text text) == "•") = false)
    (h3 : (pyStrip (clean_text text) == "·") = false)
    (h4 : (pyStrip (clean_text text) == "+") = false)
    (h5 : (pyStrip (clean_text text) == "-") = false)
    (h6 : (pyStrip (clean_text text) == "−") = false)
    (h7 : should_skip_text (clean_text text) = false)
    (hpb : st.pendingBullet = none)
    (hcap : st.recentLines.length ≤ 60) :
    (append_line text 0 false st).recentLines.length ≤ 60 ∧
    (st.recentLines.contains (clean_text (clean_text text)) = true →
      append_line text 0 false st = st) ∧
    (st.recentLines.contains (clean_text (clean_text text)) = false →
      (append_line text 0 false st).textParts =
        st.textParts ++ [clean_text text ++ "\n"] ∧
      append_line text 0 false (append_line text 0 false st) =
        append_line text 0 false st) ∧
    (append_line text 0 true st).textParts =
      st.textParts ++ [clean_text text ++ "\n"] ∧
    (appendTableSt tb st).textParts = st.textParts ++ renderTable tb ∧
    (appendTableSt tb st).recentLines = st.recentLines := by
  have hmain := append_line_plain text st false h1 h2 h3 h4 h5 h6 h7 hpb
  have htrue := append_line_plain text st true h1 h2 h3 h4 h5 h6 h7 hpb
  refine ⟨?_, ?_, ?_, ?_, rfl, rfl⟩
  · rw [hmain]
    simp only [Bool.not_false, Bool.true_and]
    by_cases hc : st.recentLines.contains (clean_text (clean_text text)) = true
    · rw [if_pos hc]
      exact hcap
    · rw [if_neg hc]
      exact dequeAppend_cap st.recentLines _ hcap
  · intro hc
    rw [hmain]
    simp only [Bool.not_false, Bool.true_and, hc, if_true]
    rw [← hpb]
  · intro hc
    rw [hmain]
    simp only [Bool.not_false, Bool.true_and, hc, Bool.false_eq_true, if_false]
    refine ⟨trivial, ?_⟩
    have hR := append_line_plain text
      { st with pendingBullet := none,
                recentLines := dequeAppend 60 st.recentLines
                  (clean_text (clean_text text)),
                sectionParts := st.sectionParts ++ [clean_text text ++ "\n"],
                textParts := st.textParts ++ [clean_text text ++ "\n"] }
      false h1 h2 h3 h4 h5 h6 h7 rfl
    rw [hR]
    simp only [Bool.not_false, Bool.true_and]
    rw [dequeAppend_mem]
    rfl
  · rw [htrue]
    simp only [Bool.not_true, Bool.false_and, Bool.false_eq_true, if_false]

/-- Witness for C8 at a concrete line: the same line emitted twice through
the plain path appears once — the second call leaves the state unchanged. -/
theorem duplicate_suppression_witness :
    append_line "Same line" 0 false (append_line "Same line" 0 false
      ⟨[], "header", [], [], [], none, [], [], []⟩) =
      append_line "Same line" 0 false
        ⟨[], "header", [], [], [], none, [], [], []⟩ := by
  have h := ((duplicate_suppression "Same line"
    ⟨[], "header", [], [], [], none, [], [], []⟩
    (Node.elem "table" [] [])
    (by decide) (by decide) (by decide) (by decide) (by decide) (by decide)
    (by decide) (by rfl) (by decide)).2.2.1 (by decide)).2
  exact h

/-- C9.  Determinism / idempotence: the extraction pipeline is a pure
function of the parsed tree — running it twice on the unchanged tree
yields the pair of two identical results, so the second run's output is
byte-identical to the first. -/
theorem extraction_idempotent :
    ∀ raw : Node, extractTwice raw = (extractDocument raw, extractDocument raw) ∧
      (extractTwice raw).1 = (extractTwice raw).2 :=
  fun _ => ⟨rfl, rfl⟩

/-- C10.  Fallback output never reaches the section map: the legacy-selector
fallback produces only flat text lines, substituted into `text_parts`
without touching the section map, the section buffer or the section name;
consequently a document where the primary wrapper-based pass finds no
article (so produces nothing), the fallback text is non-blank and no
figures or references are collected is returned as the empty mapping, not
as the absence value and not as a mapping containing the fallback text. -/
theorem fallback_section_map (raw : Node)
    (hart : findFirstBy (fun n => tagOf n == "article") (prunedOf raw) = none)
    (hfb : pyStrip (String.join (fallbackLines (prunedOf raw))) ≠ "")
    (hfig1 : (processFigures (prunedOf raw)).1 = [])
    (hfig2 : (processFigures (prunedOf raw)).2 = [])
    (href : get_reference_entries (refsSecOf (prunedOf raw))
      (buildFootnoteMap (prunedOf raw) (refsSecOf (prunedOf raw))).map
      (buildFootnoteMap (prunedOf raw) (refsSecOf (prunedOf raw))).inRefs = []) :
    (∀ (doc : Node) (st : ExtState),
      ({ st with textParts := fallbackLines doc } : ExtState).jsonData =
        st.jsonData ∧
      ({ st with textParts := fallbackLines doc } : ExtState).sectionParts =
        st.sectionParts ∧
      ({ st with textParts := fallbackLines doc } : ExtState).currentSection =
        st.currentSection) ∧
    extractDocument raw = some [] := by
  refine ⟨fun doc st => ⟨rfl, rfl, rfl⟩, ?_⟩
  unfold extractDocument
  simp only []
  rw [show primaryPass (prunedOf raw)
      (initState (buildFootnoteMap (prunedOf raw) (refsSecOf (prunedOf raw)))) =
      initState (buildFootnoteMap (prunedOf raw) (refsSecOf (prunedOf raw))) from by
    unfold primaryPass
    rw [hart]]
  rw [hfig1, hfig2, href]
  simp [initState, finalSectionFlush, hfb]

/-- Witness for C10 at a concrete document with only a bare `h1` title: the
primary pass finds no article, the fallback renders the title, and the
result is the empty mapping. -/
theorem fallback_section_map_witness :
    extractDocument (Node.elem "[document]" [] [Node.elem "html" [] [
      Node.elem "body" [] [Node.elem "h1" [] [Node.text "Only Title"]]]]) =
      some [] := by
  have h := (fallback_section_map (Node.elem "[document]" [] [Node.elem "html" [] [
      Node.elem "body" [] [Node.elem "h1" [] [Node.text "Only Title"]]]])
    (by rfl) (by decide) (by rfl) (by rfl) (by rfl)).2
  exact h
